import Mathlib

/-!
Verification development for the summarization core of the Brevity-AI backend
(`Backend/app/services/summarizer.py` and the parts of
`Backend/app/utils/text_utils.py` it uses).

Modelling conventions:
* Python strings are embedded as `List Char`; Python lists as `List`.
* Python floats are embedded as exact rationals `ℚ`.  All arithmetic the
  claims are about (sentence counts, compression ratios, the power-iteration
  loop) is embedded exactly.
* The artifact store (the `outputs/` directory of JSON and text files) is an
  association list from path (`List Char`) to `Artifact`; a write conses the
  new record, a read takes the first (newest) binding, which models
  full-overwrite file writes.
* Python exceptions are `Except Err`; a raised exception propagates and the
  store is left exactly as it was at the raise point (file writes already
  performed stay performed).
* External collaborators that are not part of this repository
  (scikit-learn's `TfidfVectorizer`/`cosine_similarity`/`TruncatedSVD`,
  the transformers summarization pipeline, nltk's `sent_tokenize`, and the
  Python runtime's salted string `hash`) are fields of the `Ext` structure
  and are universally quantified in the theorems; the repository's own code
  around them is embedded literally.
-/

namespace Brevity

/-- Python exception kinds raised/propagated by the summarizer service.
`fileNotFound` is `FileNotFoundError` (the spec's NotFound), `valueError` is
`ValueError` (the spec's InvalidInput), `indexError` is `IndexError`,
`importError` is `ImportError`, `dependencyUnavailable` stands for any
failure raised by the external summarization collaborator. -/
inductive Err where
  | fileNotFound
  | valueError
  | importError
  | indexError
  | keyError
  | dependencyUnavailable
  deriving DecidableEq

/-- Whether an `Except` result is a success (Python: the call returned
without raising). -/
def isOkE {α : Type} : Except Err α → Bool
  | .ok _ => true
  | .error _ => false

instance {ε α : Type} [DecidableEq ε] [DecidableEq α] :
    DecidableEq (Except ε α) := fun x y =>
  match x, y with
  | .ok a, .ok b =>
    if h : a = b then isTrue (by rw [h]) else isFalse (by simp [h])
  | .error e, .error f =>
    if h : e = f then isTrue (by rw [h]) else isFalse (by simp [h])
  | .ok _, .error _ => isFalse (by simp)
  | .error _, .ok _ => isFalse (by simp)

/-! ### Python string primitives (on `List Char`) -/

/-- ASCII whitespace recognised by Python's `str.strip`/`str.split` (the
texts in scope are ASCII). -/
def isPySpace (c : Char) : Bool :=
  c = ' ' || c = '\t' || c = '\n' || c = '\r' || c = '\x0b' || c = '\x0c'

/-- ASCII decimal digit, regex `\d`. -/
def isPyDigit (c : Char) : Bool := '0' ≤ c && c ≤ '9'

/-- ASCII upper-case letter, regex `[A-Z]`. -/
def isPyUpper (c : Char) : Bool := 'A' ≤ c && c ≤ 'Z'

/-- Remove trailing Python whitespace (`str.rstrip`). -/
def dropTrailingWs (l : List Char) : List Char :=
  (l.reverse.dropWhile isPySpace).reverse

/-- Python `str.strip()`: remove leading and trailing whitespace. -/
def pyStrip (l : List Char) : List Char :=
  dropTrailingWs (l.dropWhile isPySpace)

/-- Helper for `pyWords`: accumulates the current word (reversed) while
scanning. -/
def pyWordsAux : List Char → List Char → List (List Char)
  | [], acc => if acc = [] then [] else [acc.reverse]
  | c :: cs, acc =>
    if isPySpace c then
      if acc = [] then pyWordsAux cs [] else acc.reverse :: pyWordsAux cs []
    else pyWordsAux cs (c :: acc)

/-- Python `str.split()` with no argument: maximal runs of non-whitespace. -/
def pyWords (l : List Char) : List (List Char) := pyWordsAux l []

/-- Python `" ".join(xs)`. -/
def joinSpace (ls : List (List Char)) : List Char := List.intercalate [' '] ls

/-- Python `text.split(sep)` for a single-character separator `sep`. -/
def splitOnChar (sep : Char) : List Char → List (List Char)
  | [] => [[]]
  | c :: rest =>
    if c = sep then [] :: splitOnChar sep rest
    else
      match splitOnChar sep rest with
      | [] => [[c]]
      | p :: ps => (c :: p) :: ps

/-- Python `text.split(". ")`: split on the two-character separator,
leftmost and non-overlapping. -/
def splitDotSpace : List Char → List (List Char)
  | [] => [[]]
  | [c] => [[c]]
  | c1 :: c2 :: rest =>
    if c1 = '.' ∧ c2 = ' ' then [] :: splitDotSpace rest
    else
      match splitDotSpace (c2 :: rest) with
      | [] => [[c1]]
      | p :: ps => (c1 :: p) :: ps

/-- First index at which `pat` occurs as a contiguous sublist of `l`
(Python `str.find`, as an `Option`). -/
def pyFind (pat l : List Char) : Option ℕ :=
  (List.range (l.length + 1)).find? (fun i => decide (pat.isPrefixOf (l.drop i)))

/-- Case-insensitive variant of `pyFind` (models `re.search` with
`re.IGNORECASE` for a pattern that is a plain literal). -/
def pyFindCI (pat l : List Char) : Option ℕ :=
  pyFind (pat.map Char.toLower) (l.map Char.toLower)

/-! ### The three regex substitutions of the formatted pipeline's scrub step
and the email/phone scrub, as direct translations of the patterns

Each matcher takes the text starting at the current scan position and
returns the length of the (leftmost) match starting exactly there, if any.
All four patterns can only match a non-empty span, so every successful match
consumes at least one character. -/

/-- Match `[-]{2,}\s*Page\s*\d+\s*[-]{2,}` (case-insensitive) at the head of
`l`; returns the matched length.  The character classes of consecutive
greedy pieces are disjoint, so no backtracking arises. -/
def pageMarkerMatch (l : List Char) : Option ℕ :=
  let d1 := l.takeWhile (fun c => c = '-')
  if d1.length < 2 then none else
  let r1 := (l.drop d1.length).dropWhile isPySpace
  if ('p' :: 'a' :: 'g' :: 'e' :: []).isPrefixOf (r1.map Char.toLower) then
    let r2 := (r1.drop 4).dropWhile isPySpace
    let digs := r2.takeWhile isPyDigit
    if digs.length = 0 then none else
    let r3 := (r2.drop digs.length).dropWhile isPySpace
    let d2 := r3.takeWhile (fun c => c = '-')
    if d2.length < 2 then none else
    some (l.length - (r3.drop d2.length).length)
  else none

/-- Match `Page\s*\d+` (case-insensitive) at the head of `l`. -/
def pageNumMatch (l : List Char) : Option ℕ :=
  if ('p' :: 'a' :: 'g' :: 'e' :: []).isPrefixOf (l.map Char.toLower) then
    let r1 := (l.drop 4).dropWhile isPySpace
    let digs := r1.takeWhile isPyDigit
    if digs.length = 0 then none else
    some (l.length - (r1.drop digs.length).length)
  else none

/-- Match `\S+@\S+` at the head of `l`.  A match starting at the head exists
iff the maximal non-whitespace run starting there contains an `@` that is
neither its first nor its last character; by greediness the whole run is
consumed. -/
def emailMatch (l : List Char) : Option ℕ :=
  match l with
  | [] => none
  | c :: _ =>
    if isPySpace c then none else
    let run := l.takeWhile (fun c => ¬ isPySpace c)
    if (run.drop 1).dropLast.contains '@' then some run.length else none

/-- Match `\+?\d[\d\s\-]{7,}\d` at the head of `l`.  The inner class is
matched greedily and then backtracks to the last digit at index ≥ 7 of the
class run. -/
def phoneMatch (l : List Char) : Option ℕ :=
  let core : List Char → Option ℕ := fun l1 =>
    match l1 with
    | [] => none
    | c :: rest =>
      if isPyDigit c then
        let r := rest.takeWhile (fun x => isPyDigit x || isPySpace x || x = '-')
        match ((List.range r.length).filter
            (fun i => 7 ≤ i && isPyDigit (r.getD i ' '))).getLast? with
        | some i => some (1 + i + 1)
        | none => none
      else none
  match l with
  | '+' :: rest => (core rest).map (· + 1)
  | _ => core l

/-- Fuel-indexed scanner for `re.sub(pattern, "", text)`: scan left to
right; on a match drop it and continue after it, otherwise keep one
character and continue.  Every matcher used consumes at least one character,
so fuel `l.length` (as supplied by `scrubWith`) never runs out. -/
def scrubAux (m : List Char → Option ℕ) : ℕ → List Char → List Char
  | 0, l => l
  | _ + 1, [] => []
  | fuel + 1, c :: cs =>
    match m (c :: cs) with
    | some k => scrubAux m fuel (cs.drop (k - 1))
    | none => c :: scrubAux m fuel cs

/-- `re.sub(pattern, "", text)` for one of the matchers above. -/
def scrubWith (m : List Char → Option ℕ) (l : List Char) : List Char :=
  scrubAux m l.length l

/-- The scrub step of `formatted_hybrid_summary` (Step 0): remove page
markers, bare page numbers, emails, then phone numbers, in this order. -/
def scrubText (l : List Char) : List Char :=
  scrubWith phoneMatch (scrubWith emailMatch
    (scrubWith pageNumMatch (scrubWith pageMarkerMatch l)))

/-! ### The shared ranking-and-selection step

All three rankers build `[(scores[i], sentences[i]) for i in range(len(sentences))]`,
sort it with `list.sort(key=lambda x: x[0], reverse=True)` and keep the first
`num_sentences` entries.  Python's sort is stable (also with `reverse=True`),
and a stable descending sort is a unique function of its input, so it is
embedded by the stable descending insertion sort below.  Pairs carry the
original index instead of the sentence so that order properties can be
stated; the selected sentences are recovered through the index. -/

/-- Insert a pair into a descending-sorted list, after all strictly greater
scores and before all equal or smaller ones (keeps earlier-input elements
first among equal scores). -/
def insertDesc (x : ℚ × ℕ) : List (ℚ × ℕ) → List (ℚ × ℕ)
  | [] => [x]
  | y :: ys => if x.1 < y.1 then y :: insertDesc x ys else x :: y :: ys

/-- Stable sort by score, descending (Python
`sort(key=lambda x: x[0], reverse=True)`). -/
def sortDesc : List (ℚ × ℕ) → List (ℚ × ℕ)
  | [] => []
  | x :: xs => insertDesc x (sortDesc xs)

/-- `[(scores[i], i) for i in range(n)]`, raising `IndexError` when some
`scores[i]` is out of range (exactly as the list comprehension in the source
would). -/
def pairScoresAux (scores : List ℚ) : List ℕ → Except Err (List (ℚ × ℕ))
  | [] => .ok []
  | i :: is =>
    match scores.get? i with
    | none => .error .indexError
    | some q =>
      match pairScoresAux scores is with
      | .error e => .error e
      | .ok ps => .ok ((q, i) :: ps)

/-- The score/index pair list over `range n`. -/
def pairScores (scores : List ℚ) (n : ℕ) : Except Err (List (ℚ × ℕ)) :=
  pairScoresAux scores (List.range n)

/-- The same pair list as a total function, used to state theorems
(`pairScores_ok` relates the two). -/
def pairList (scores : List ℚ) (n : ℕ) : List (ℚ × ℕ) :=
  (List.range n).map (fun i => (scores.getD i 0, i))

/-- Shared tail of all three rankers: pair scores with indices, sort
descending (stably), truncate to `num`, and return the selected sentences in
selection order. -/
def selectTop (scores : List ℚ) (sentences : List (List Char)) (num : ℕ) :
    Except Err (List (List Char)) :=
  match pairScores scores sentences.length with
  | .error e => .error e
  | .ok ps => .ok (((sortDesc ps).take num).map (fun p => sentences.getD p.2 []))

end Brevity

/-! Sanity checks for the primitives (concrete evaluations). -/

namespace Brevity

example : pyWords " ab  cd ".toList = ["ab".toList, "cd".toList] := by decide
example : pyStrip "  a b \t".toList = "a b".toList := by decide
example : splitDotSpace "ab. cd".toList = ["ab".toList, "cd".toList] := by decide
example : splitDotSpace "".toList = [[]] := by decide
example : scrubWith emailMatch "see a@b now".toList = "see  now".toList := by decide
example : scrubWith pageNumMatch "x Page 12 y".toList = "x  y".toList := by decide
example : scrubWith pageMarkerMatch "a --- Page 2 --- b".toList = "a  b".toList := by decide
example : scrubWith phoneMatch "tel +1 234-567-89 end".toList = "tel  end".toList := by decide
example : sortDesc [(1, 0), (2, 1), (1, 2)] = [(2, 1), (1, 0), (1, 2)] := by
  with_unfolding_all decide
example : ((1 : ℚ) / 2 + 1 / 3) = 5 / 6 := by with_unfolding_all decide

/-! ### Stability of the shared sort -/

theorem sublist_insertDesc (x : ℚ × ℕ) (l : List (ℚ × ℕ)) :
    List.Sublist l (insertDesc x l) := by
  induction l with
  | nil => simp [insertDesc]
  | cons y ys ih =>
    simp only [insertDesc]
    split
    · exact List.Sublist.cons₂ y ih
    · exact List.sublist_cons_self x (y :: ys)

theorem mem_insertDesc {b x : ℚ × ℕ} {l : List (ℚ × ℕ)} :
    b ∈ insertDesc x l ↔ b = x ∨ b ∈ l := by
  induction l with
  | nil => simp [insertDesc]
  | cons y ys ih =>
    simp only [insertDesc]
    split
    · simp only [List.mem_cons, ih]
      try tauto
    · simp only [List.mem_cons]
      try tauto

theorem mem_sortDesc {b : ℚ × ℕ} {l : List (ℚ × ℕ)} :
    b ∈ sortDesc l ↔ b ∈ l := by
  induction l with
  | nil => simp [sortDesc]
  | cons x xs ih => simp [sortDesc, mem_insertDesc, ih]

theorem insertDesc_pair_sublist (x b : ℚ × ℕ) (l : List (ℚ × ℕ))
    (hb : b ∈ l) (hle : b.1 ≤ x.1) :
    List.Sublist [x, b] (insertDesc x l) := by
  induction l with
  | nil => cases hb
  | cons y ys ih =>
    simp only [insertDesc]
    split
    · rename_i hlt
      have hby : b ≠ y := by
        intro h; subst h; exact absurd (lt_of_le_of_lt hle hlt) (lt_irrefl _)
      have hbys : b ∈ ys := by
        rcases List.mem_cons.mp hb with h | h
        · exact absurd h hby
        · exact h
      exact List.Sublist.cons y (ih hbys)
    · exact List.Sublist.cons₂ x (List.singleton_sublist.mpr hb)

/-- Stability of the descending sort: if `a` occurs before `b` in the input
and `b`'s score is not larger, then `a` still occurs before `b` in the
output. -/
theorem sortDesc_stable (a b : ℚ × ℕ) (l : List (ℚ × ℕ))
    (h : List.Sublist [a, b] l) (hle : b.1 ≤ a.1) :
    List.Sublist [a, b] (sortDesc l) := by
  induction l with
  | nil => cases h
  | cons x xs ih =>
    cases h with
    | cons _ h' => exact (ih h').trans (sublist_insertDesc x (sortDesc xs))
    | cons₂ _ h' =>
      have hb : b ∈ sortDesc xs :=
        mem_sortDesc.mpr (List.singleton_sublist.mp h')
      exact insertDesc_pair_sublist a b (sortDesc xs) hb hle

theorem length_insertDesc (x : ℚ × ℕ) (l : List (ℚ × ℕ)) :
    (insertDesc x l).length = l.length + 1 := by
  induction l with
  | nil => rfl
  | cons y ys ih =>
    simp only [insertDesc]
    split
    · simp [ih]
    · simp

theorem length_sortDesc (l : List (ℚ × ℕ)) :
    (sortDesc l).length = l.length := by
  induction l with
  | nil => rfl
  | cons x xs ih => simp [sortDesc, length_insertDesc, ih]

theorem pairScoresAux_ok (scores : List ℚ) (is : List ℕ)
    (h : ∀ i ∈ is, i < scores.length) :
    pairScoresAux scores is = .ok (is.map (fun i => (scores.getD i 0, i))) := by
  induction is with
  | nil => rfl
  | cons i is ih =>
    have hi : i < scores.length := h i (List.mem_cons_self i is)
    have hget : scores.get? i = some (scores.getD i 0) := by
      simp [List.get?_eq_getElem?, List.getD_eq_getElem?_getD,
        List.getElem?_eq_getElem hi]
    simp only [pairScoresAux, hget,
      ih (fun j hj => h j (List.mem_cons_of_mem i hj))]
    rfl

theorem pairScores_ok (scores : List ℚ) (n : ℕ) (h : n ≤ scores.length) :
    pairScores scores n = .ok (pairList scores n) := by
  unfold pairScores pairList
  exact pairScoresAux_ok scores (List.range n)
    (fun i hi => lt_of_lt_of_le (List.mem_range.mp hi) h)

/-- Two positions `i < j < n` give a before/after pair in `pairList`. -/
theorem pairList_sublist (scores : List ℚ) (n i j : ℕ)
    (hij : i < j) (hj : j < n) :
    List.Sublist [(scores.getD i 0, i), (scores.getD j 0, j)]
      (pairList scores n) := by
  have hrange : List.Sublist [i, j] (List.range n) := by
    induction n with
    | zero => cases hj
    | succ m ih =>
      rw [List.range_succ]
      rcases Nat.lt_succ_iff_lt_or_eq.mp hj with h | h
      · exact (ih h).trans (List.sublist_append_left _ _)
      · subst h
        have : List.Sublist [i] (List.range j) :=
          List.singleton_sublist.mpr (List.mem_range.mpr hij)
        simpa using List.Sublist.append this (List.Sublist.refl [j])
  simpa [pairList] using hrange.map (fun i => (scores.getD i 0, i))

end Brevity

namespace Brevity

/-! ### Vector and matrix operations used by `_pagerank`
(`similarity_matrix.T.dot(scores)` and the scalar broadcasts). -/

/-- Elementwise sum of two equally-long vectors. -/
def addVec (v w : List ℚ) : List ℚ := List.zipWith (· + ·) v w

/-- Scalar multiple of a vector. -/
def scaleVec (a : ℚ) (v : List ℚ) : List ℚ := v.map (fun x => a * x)

/-- `mᵀ · s` for a matrix given as a list of rows: `Σᵢ sᵢ • rowᵢ`, starting
from the zero vector of length `n` (numpy truncation on ragged input is
modelled by the zip-style recursion). -/
def matTdot (n : ℕ) : List (List ℚ) → List ℚ → List ℚ
  | [], _ => List.replicate n 0
  | _, [] => List.replicate n 0
  | r :: m, a :: s => addVec (scaleVec a r) (matTdot n m s)

/-- `np.allclose(a, b, atol=1e-6)` with numpy's default `rtol=1e-5`:
elementwise `|a - b| ≤ atol + rtol * |b|`. -/
def allclose (a b : List ℚ) : Bool :=
  (List.zipWith (fun x y => decide (|x - y| ≤ 1 / 1000000 + (1 / 100000) * |y|)) a b).all id

/-- One step of `_pagerank`:
`new_scores = (1 - damping) / n + damping * similarity_matrix.T.dot(scores)`. -/
def pagerankUpdate (m : List (List ℚ)) (damping : ℚ) (v : List ℚ) : List ℚ :=
  addVec (List.replicate m.length ((1 - damping) / m.length))
    (scaleVec damping (matTdot m.length m v))

/-- The iteration loop of `_pagerank`: on `np.allclose` the loop breaks and
the pre-update vector is returned; otherwise the update is kept and the
iteration budget decreases. -/
def pagerankLoop (m : List (List ℚ)) (damping : ℚ) : ℕ → List ℚ → List ℚ
  | 0, scores => scores
  | k + 1, scores =>
    let ns := pagerankUpdate m damping scores
    if allclose scores ns then scores else pagerankLoop m damping k ns

/-- `_pagerank(similarity_matrix, damping=0.85, max_iter=100)`: scores start
at `1/n` and the loop above runs for at most `max_iter` iterations. -/
def pagerank (m : List (List ℚ)) (damping : ℚ := 85 / 100)
    (maxIter : ℕ := 100) : List ℚ :=
  pagerankLoop m damping maxIter (List.replicate m.length (1 / (m.length : ℚ)))

/-- The sequence of score vectors of the power iteration: `j` applications
of `pagerankUpdate` to the uniform initial vector. -/
def pagerankIter (m : List (List ℚ)) (damping : ℚ) : ℕ → List ℚ
  | 0 => List.replicate m.length (1 / (m.length : ℚ))
  | j + 1 => pagerankUpdate m damping (pagerankIter m damping j)

/-- The step at which `_pagerank` stops: the first `j < maxIter` whose
update passes the `np.allclose` check, or `maxIter` if none does. -/
def pagerankStop (m : List (List ℚ)) (damping : ℚ) (maxIter : ℕ) : ℕ :=
  ((List.range maxIter).find?
    (fun j => allclose (pagerankIter m damping j) (pagerankIter m damping (j + 1)))).getD
    maxIter

end Brevity

namespace Brevity

/-! ### Characterization of the `_pagerank` loop (claim C8 groundwork) -/

theorem pagerankLoop_iter (m : List (List ℚ)) (d : ℚ) (k j : ℕ) :
    pagerankLoop m d k (pagerankIter m d j) =
      pagerankIter m d (j + (((List.range k).find? (fun i =>
        allclose (pagerankIter m d (j + i)) (pagerankIter m d (j + i + 1)))).getD k)) := by
  induction k generalizing j with
  | zero => simp [pagerankLoop]
  | succ k ih =>
    have hns : pagerankUpdate m d (pagerankIter m d j) = pagerankIter m d (j + 1) := rfl
    by_cases h : allclose (pagerankIter m d j) (pagerankIter m d (j + 1))
    · have hfind :
          ((List.range (k + 1)).find? (fun i =>
            allclose (pagerankIter m d (j + i)) (pagerankIter m d (j + i + 1)))) = some 0 := by
        rw [List.range_succ_eq_map]
        apply List.find?_cons_of_pos
        simpa using h
      simp only [pagerankLoop, hns, if_pos h, hfind, Option.getD_some, Nat.add_zero]
    · have hpred : ((fun i =>
            allclose (pagerankIter m d (j + i)) (pagerankIter m d (j + i + 1))) ∘ Nat.succ) =
          (fun i =>
            allclose (pagerankIter m d (j + 1 + i)) (pagerankIter m d (j + 1 + i + 1))) := by
        funext i
        simp only [Function.comp]
        have e1 : j + Nat.succ i = j + 1 + i := by omega
        rw [e1]
      have hfind :
          ((List.range (k + 1)).find? (fun i =>
            allclose (pagerankIter m d (j + i)) (pagerankIter m d (j + i + 1)))) =
          (((List.range k).find? (fun i =>
            allclose (pagerankIter m d (j + 1 + i)) (pagerankIter m d (j + 1 + i + 1)))).map
              Nat.succ) := by
        rw [List.range_succ_eq_map, List.find?_cons_of_neg, List.find?_map, hpred]
        simpa using h
      simp only [pagerankLoop, hns, if_neg h, ih (j + 1), hfind]
      rcases hfound : ((List.range k).find? (fun i =>
          allclose (pagerankIter m d (j + 1 + i)) (pagerankIter m d (j + 1 + i + 1)))) with
        _ | i
      · simp only [Option.map_none', Option.getD_none]
        congr 1
        omega
      · simp only [Option.map_some', Option.getD_some]
        congr 1
        omega

/-! ### Sum/length lemmas for the power iteration (claim C9 groundwork) -/

theorem length_addVec (v w : List ℚ) : (addVec v w).length = min v.length w.length := by
  simp [addVec]

theorem length_scaleVec (a : ℚ) (v : List ℚ) : (scaleVec a v).length = v.length := by
  simp [scaleVec]

theorem sum_scaleVec (a : ℚ) (v : List ℚ) : (scaleVec a v).sum = a * v.sum := by
  induction v with
  | nil => simp [scaleVec]
  | cons x xs ih => simp [scaleVec, mul_add] at *; simp [ih, mul_add]

theorem sum_addVec (v w : List ℚ) (h : v.length = w.length) :
    (addVec v w).sum = v.sum + w.sum := by
  induction v generalizing w with
  | nil =>
    cases w with
    | nil => simp [addVec]
    | cons y ys => simp at h
  | cons x xs ih =>
    cases w with
    | nil => simp at h
    | cons y ys =>
      have h' : xs.length = ys.length := by simpa using h
      simp only [addVec, List.zipWith_cons_cons, List.sum_cons] at *
      rw [ih ys h']
      ring

theorem sum_replicate_rat (n : ℕ) (x : ℚ) : (List.replicate n x).sum = n * x := by
  induction n with
  | zero => simp
  | succ k ih => simp [List.replicate_succ, ih, add_mul]; ring

theorem length_matTdot (n : ℕ) (m : List (List ℚ)) (s : List ℚ)
    (h : ∀ r ∈ m, r.length = n) : (matTdot n m s).length = n := by
  induction m generalizing s with
  | nil => simp [matTdot]
  | cons r m ih =>
    cases s with
    | nil => simp [matTdot]
    | cons a s =>
      have hr : r.length = n := h r (List.mem_cons_self r m)
      have hm : ∀ q ∈ m, q.length = n := fun q hq => h q (List.mem_cons_of_mem r hq)
      simp [matTdot, length_addVec, length_scaleVec, hr, ih s hm]

theorem sum_matTdot (n : ℕ) (m : List (List ℚ)) (s : List ℚ)
    (h : ∀ r ∈ m, r.length = n ∧ r.sum = 1) (hs : s.length = m.length) :
    (matTdot n m s).sum = s.sum := by
  induction m generalizing s with
  | nil =>
    cases s with
    | nil => simp [matTdot, sum_replicate_rat]
    | cons a s => simp at hs
  | cons r m ih =>
    cases s with
    | nil => simp at hs
    | cons a s =>
      have hr := h r (List.mem_cons_self r m)
      have hm : ∀ q ∈ m, q.length = n ∧ q.sum = 1 :=
        fun q hq => h q (List.mem_cons_of_mem r hq)
      have hlen : (scaleVec a r).length = (matTdot n m s).length := by
        rw [length_scaleVec, hr.1, length_matTdot n m s (fun q hq => (hm q hq).1)]
      simp only [matTdot, List.sum_cons]
      rw [sum_addVec _ _ hlen, sum_scaleVec, hr.2, ih s hm (by simpa using hs)]
      ring

theorem length_pagerankIter (m : List (List ℚ)) (d : ℚ)
    (h : ∀ r ∈ m, r.length = m.length) (j : ℕ) :
    (pagerankIter m d j).length = m.length := by
  induction j with
  | zero => simp [pagerankIter]
  | succ j _ =>
    simp [pagerankIter, pagerankUpdate, length_addVec, length_scaleVec,
      length_matTdot m.length m _ h]

end Brevity

namespace Brevity

/-! ### The artifact store (`outputs/` directory) and the persisted records -/

/-- Record written by `extractive_summary` (its `metadata` dict). -/
structure ExtractiveMeta where
  summary_text : List Char
  summary_sentences : List (List Char)
  original_sentences : ℕ
  compression_ratio : ℚ
  algorithm : List Char
  summary_ratio : ℚ
  file_path : List Char
  processing_time : List Char
  deriving DecidableEq

/-- Record written by `abstractive_summary`. -/
structure AbstractiveMeta where
  summary_text : List Char
  original_length : ℕ
  summary_length : ℕ
  compression_ratio : ℚ
  model : List Char
  max_length : ℕ
  min_length : ℕ
  file_path : List Char
  processing_method : List Char
  deriving DecidableEq

/-- Record written by `hybrid_summary`. -/
structure HybridMeta where
  summary_text : List Char
  original_length : ℕ
  summary_length : ℕ
  compression_ratio : ℚ
  extractive_ratio : ℚ
  file_path : List Char
  processing_method : List Char
  deriving DecidableEq

/-- Record written by `formatted_hybrid_summary` (the returned dict also
carries a `file_path` key added after the record is saved; that key is not
part of the persisted record and is not modelled). -/
structure FormattedMeta where
  title : List Char
  objective : List Char
  key_points : List (List Char)
  section_summary : List (List Char × List Char)
  final_abstract : List Char
  processing_method : List Char
  deriving DecidableEq

/-- A persisted file in `outputs/`.  `cleaningMeta` is the cleaning stage's
`*_cleaning_metadata.json` restricted to the two fields the summarizer
reads and writes (`sentences`, `cleaned_text`); its remaining fields are
never touched by the code under verification. -/
inductive Artifact where
  | cleaningMeta (sentences : List (List Char)) (cleaned_text : List Char)
  | textFile (content : List Char)
  | extractiveRec (m : ExtractiveMeta)
  | abstractiveRec (m : AbstractiveMeta)
  | hybridRec (m : HybridMeta)
  | formattedRec (m : FormattedMeta)
  deriving DecidableEq

/-- The artifact store: newest binding first; `readStore` takes the first
binding for a path, so a later `writeStore` fully overwrites an earlier
one, exactly like rewriting the file. -/
abbrev Store := List (List Char × Artifact)

/-- Read the file at path `p` (`None` models a missing file). -/
def readStore (st : Store) (p : List Char) : Option Artifact :=
  (st.find? (fun e => e.1 == p)).map (fun e => e.2)

/-- Overwrite the file at path `p`. -/
def writeStore (st : Store) (p : List Char) (a : Artifact) : Store :=
  (p, a) :: st

/-- `os.path.join("outputs", base + "_" + suffix)`: every file the service
touches lives at such a path (`base` is the uploaded file's base name). -/
def docPath (base suffix : List Char) : List Char :=
  ("outputs/".toList ++ base ++ "_".toList) ++ suffix

/-- Path suffix of the cleaning stage's record. -/
def cleaningSuffix : List Char := "cleaning_metadata.json".toList

/-- Path suffix `{stype}_summary_metadata.json`, as built by `get_summary`
and by the three summary writers. -/
def metaSuffix (stype : List Char) : List Char :=
  stype ++ "_summary_metadata.json".toList

/-! ### External collaborators

These are the library calls the summarizer delegates to; they are not code
of this repository, so the embedding is parametric in them (theorems
quantify over `Ext`, counterexamples instantiate it). -/

/-- The external collaborators of the summarizer:
* `cosSim` — `cosine_similarity(TfidfVectorizer(stop_words='english',
  max_features=5000).fit_transform(sentences))`, i.e. the raw pairwise
  cosine-similarity matrix before row normalization (scikit-learn);
* `tfidfRowSums` — `np.array(tfidf_matrix.sum(axis=1)).flatten()`
  (scikit-learn);
* `lsaScores k` — row norms of `TruncatedSVD(n_components=k)` applied to
  the TF-IDF matrix (scikit-learn);
* `pyHash` — the Python runtime's salted string `hash` used for the cache
  key `f"textrank_{hash(' '.join(sentences))}"` (the `textrank_` prefix is
  injective in the hash value, so the key is modelled by the hash itself);
* `pipelineOracle` — one call of the transformers summarization pipeline
  on a chunk, with `max_length`/`min_length`; an `error` result models any
  exception raised while loading or running the model;
* `sentTok` — nltk's `sent_tokenize`. -/
structure Ext where
  cosSim : List (List Char) → List (List ℚ)
  tfidfRowSums : List (List Char) → List ℚ
  lsaScores : ℕ → List (List Char) → List ℚ
  pyHash : List Char → Int
  pipelineOracle : List Char → ℕ → ℕ → Except Err (List Char)
  sentTok : List Char → List (List Char)

/-- The in-process similarity cache `self._similarity_cache`, keyed by the
corpus fingerprint. -/
abbrev SimCache := List (Int × List (List ℚ))

/-- Cache lookup. -/
def readCache (c : SimCache) (k : Int) : Option (List (List ℚ)) :=
  (c.find? (fun e => e.1 == k)).map (fun e => e.2)

/-- Cache insert/overwrite. -/
def writeCache (c : SimCache) (k : Int) (m : List (List ℚ)) : SimCache :=
  (k, m) :: c

/-- The cache key of a corpus: `hash(' '.join(sentences))`. -/
def cacheKey (ext : Ext) (sentences : List (List Char)) : Int :=
  ext.pyHash (joinSpace sentences)

/-! ### `_create_similarity_matrix_async` and the three rankers -/

/-- Row normalization
`similarity_matrix / (similarity_matrix.sum(axis=1, keepdims=True) + 1e-8)`. -/
def rowNormalize (m : List (List ℚ)) : List (List ℚ) :=
  m.map (fun row => row.map (fun x => x / (row.sum + 1 / 100000000)))

/-- `_create_similarity_matrix_async`: cosine similarities of the TF-IDF
vectors, then row normalization. -/
def createSimilarityMatrix (ext : Ext) (sentences : List (List Char)) :
    List (List ℚ) :=
  rowNormalize (ext.cosSim sentences)

/-- `_optimized_textrank_summarize`: cache-aware similarity matrix, then
`_pagerank`, then the shared sort-and-truncate step. -/
def optimizedTextrank (ext : Ext) (sentences : List (List Char)) (num : ℕ)
    (useCache : Bool) (cache : SimCache) :
    Except Err (List (List Char)) × SimCache :=
  let key := cacheKey ext sentences
  let mc : List (List ℚ) × SimCache :=
    if useCache then
      match readCache cache key with
      | some mat => (mat, cache)
      | none =>
        let mat := createSimilarityMatrix ext sentences
        (mat, writeCache cache key mat)
    else (createSimilarityMatrix ext sentences, cache)
  (selectTop (pagerank mc.1) sentences num, mc.2)

/-- `max(1, int(original_sentences * summary_ratio))`.  Python `int()`
truncates toward zero; for a non-negative product this is the floor, and
for a negative product both truncation and floor are clamped to `1` by the
outer `max`, so `max 1 ⌊·⌋.toNat` is extensionally the same. -/
def numSentencesFor (n : ℕ) (summary_ratio : ℚ) : ℕ :=
  max 1 (Int.toNat ⌊(n : ℚ) * summary_ratio⌋)

/-- The `if algorithm == ... / elif ... / else raise` dispatch block of
`extractive_summary`. -/
def rankDispatch (ext : Ext) (sentences : List (List Char)) (num : ℕ)
    (algorithm : List Char) (useCache : Bool) (cache : SimCache) :
    Except Err (List (List Char)) × SimCache :=
  if algorithm = "textrank".toList then
    optimizedTextrank ext sentences num useCache cache
  else if algorithm = "tfidf".toList then
    (selectTop (ext.tfidfRowSums sentences) sentences num, cache)
  else if algorithm = "lsa".toList then
    (selectTop (ext.lsaScores (min num sentences.length) sentences) sentences num,
      cache)
  else (.error .valueError, cache)

/-- `extractive_summary(filename, summary_ratio, algorithm, use_cache)`. -/
def extractive_summary (ext : Ext) (base : List Char) (summary_ratio : ℚ)
    (algorithm : List Char) (useCache : Bool) (st : Store) (cache : SimCache) :
    Except Err ExtractiveMeta × Store × SimCache :=
  match readStore st (docPath base cleaningSuffix) with
  | none => (.error .fileNotFound, st, cache)
  | some (Artifact.cleaningMeta sentences _) =>
    let n := sentences.length
    if n = 0 then (.error .valueError, st, cache)
    else
      let num := numSentencesFor n summary_ratio
      match rankDispatch ext sentences num algorithm useCache cache with
      | (.error e, cache') => (.error e, st, cache')
      | (.ok summarySentences, cache') =>
        let summary_text := joinSpace summarySentences
        let meta : ExtractiveMeta :=
          { summary_text := summary_text
            summary_sentences := summarySentences
            original_sentences := n
            compression_ratio := (summarySentences.length : ℚ) / n
            algorithm := algorithm
            summary_ratio := summary_ratio
            file_path := docPath base "extractive_summary.txt".toList
            processing_time := "optimized".toList }
        let st1 := writeStore st (docPath base "extractive_summary.txt".toList)
          (Artifact.textFile summary_text)
        let st2 := writeStore st1 (docPath base (metaSuffix "extractive".toList))
          (Artifact.extractiveRec meta)
        (.ok meta, st2, cache')
  | some _ => (.error .keyError, st, cache)

/-! ### `_pipeline_summarize` and `abstractive_summary` -/

/-- The chunk-building loop of `_pipeline_summarize` (`chunk_size = 1000`
words): accumulate sentence pieces into `temp_chunk` while the combined
word count stays within the budget, else flush the stripped chunk. -/
def buildChunksAux : List (List Char) → List Char → List (List Char)
  | [], temp => if temp = [] then [] else [pyStrip temp]
  | s :: ss, temp =>
    if (pyWords temp).length + (pyWords s).length ≤ 1000 then
      buildChunksAux ss (temp ++ s ++ ('.' :: ' ' :: []))
    else pyStrip temp :: buildChunksAux ss (s ++ ('.' :: ' ' :: []))

/-- The chunks `_pipeline_summarize` builds from a text. -/
def buildChunks (text : List Char) : List (List Char) :=
  buildChunksAux (splitDotSpace text) []

/-- The chunks actually handed to the summarization pipeline: only those
with `len(chunk.strip()) > 50`. -/
def chunksToSend (text : List Char) : List (List Char) :=
  (buildChunks text).filter (fun c => 50 < (pyStrip c).length)

/-- `_pipeline_summarize`: run the pipeline on each substantial chunk in
input order and join the per-chunk summaries with spaces. -/
def pipelineSummarize (ext : Ext) (text : List Char) (maxLen minLen : ℕ) :
    Except Err (List Char) :=
  match (chunksToSend text).mapM (fun c => ext.pipelineOracle c maxLen minLen) with
  | .error e => .error e
  | .ok summaries => .ok (joinSpace summaries)

/-- `abstractive_summary(filename, max_length, min_length, model)` on the
default `use_pipeline=True` path (the only path the service's callers use;
failures while loading torch or the pipeline are modelled by an `error`
result of the oracle, which is raised before any file is written, exactly
as in the source). -/
def abstractive_summary (ext : Ext) (base : List Char) (maxLen minLen : ℕ)
    (model : List Char) (st : Store) : Except Err AbstractiveMeta × Store :=
  match readStore st (docPath base cleaningSuffix) with
  | none => (.error .fileNotFound, st)
  | some (Artifact.cleaningMeta _ text) =>
    let original_length := text.length
    match pipelineSummarize ext text maxLen minLen with
    | .error e => (.error e, st)
    | .ok summary_text =>
      let summary_length := summary_text.length
      let meta : AbstractiveMeta :=
        { summary_text := summary_text
          original_length := original_length
          summary_length := summary_length
          compression_ratio :=
            if 0 < original_length then (summary_length : ℚ) / original_length else 0
          model := model
          max_length := maxLen
          min_length := minLen
          file_path := docPath base "abstractive_summary.txt".toList
          processing_method := "pipeline".toList }
      let st1 := writeStore st (docPath base "abstractive_summary.txt".toList)
        (Artifact.textFile summary_text)
      let st2 := writeStore st1 (docPath base (metaSuffix "abstractive".toList))
        (Artifact.abstractiveRec meta)
      (.ok meta, st2)
  | some _ => (.error .keyError, st)

/-! ### `hybrid_summary` -/

/-- `hybrid_summary(filename, extractive_ratio, max_length, min_length)`:
extractive pass, then the persisted cleaned text is overridden with the
extractive summary, `abstractive_summary` runs against the overridden
artifact, and the original text is written back.  The source has no
`try/finally`, so (faithfully) an exception from the abstractive step
propagates with the override still in place. -/
def hybrid_summary (ext : Ext) (base : List Char) (extractive_ratio : ℚ)
    (maxLen minLen : ℕ) (st : Store) (cache : SimCache) :
    Except Err HybridMeta × Store × SimCache :=
  match extractive_summary ext base extractive_ratio "textrank".toList true st cache with
  | (.error e, st1, c1) => (.error e, st1, c1)
  | (.ok exMeta, st1, c1) =>
    match readStore st1 (docPath base cleaningSuffix) with
    | none => (.error .fileNotFound, st1, c1)
    | some (Artifact.cleaningMeta sentences originalText) =>
      let st2 := writeStore st1 (docPath base cleaningSuffix)
        (Artifact.cleaningMeta sentences exMeta.summary_text)
      match abstractive_summary ext base maxLen minLen
          "facebook/bart-large-cnn".toList st2 with
      | (.error e, st3) => (.error e, st3, c1)
      | (.ok absMeta, st3) =>
        let st4 := writeStore st3 (docPath base cleaningSuffix)
          (Artifact.cleaningMeta sentences originalText)
        let meta : HybridMeta :=
          { summary_text := absMeta.summary_text
            original_length := originalText.length
            summary_length := absMeta.summary_length
            compression_ratio := absMeta.compression_ratio
            extractive_ratio := extractive_ratio
            file_path := docPath base "hybrid_summary.txt".toList
            processing_method := "optimized_hybrid".toList }
        let st5 := writeStore st4 (docPath base "hybrid_summary.txt".toList)
          (Artifact.textFile absMeta.summary_text)
        let st6 := writeStore st5 (docPath base (metaSuffix "hybrid".toList))
          (Artifact.hybridRec meta)
        (.ok meta, st6, c1)
    | some _ => (.error .keyError, st1, c1)

end Brevity

namespace Brevity

/-! ### `formatted_hybrid_summary` and its text-utils helpers -/

/-- `TextUtils.split_into_sentences`: nltk sentence tokenization followed by
stripping and dropping empty results. -/
def splitIntoSentences (ext : Ext) (text : List Char) : List (List Char) :=
  ((ext.sentTok text).map pyStrip).filter (fun s => s ≠ [])

/-- A line captured by the section regex
`(?:\n|^)([A-Z][^\n]{5,})(?=\n|$)`: a whole line that starts with an
upper-case letter and is at least six characters long. -/
def isSectionHeading (l : List Char) : Bool :=
  match l with
  | [] => false
  | c :: rest => isPyUpper c && 5 ≤ rest.length

/-- `text[start : text.find("\n", start)]` (to the end when there is no
newline). -/
def takeToNewline (l : List Char) : List Char :=
  l.takeWhile (fun c => c ≠ '\n')

/-- Python-dict insertion: overwrite in place if the key exists, else append
(preserves insertion order like a Python dict). -/
def dictInsert (d : List (List Char × List Char)) (k v : List Char) :
    List (List Char × List Char) :=
  if d.any (fun e => e.1 == k) then
    d.map (fun e => if e.1 == k then (k, v) else e)
  else d ++ [(k, v)]

/-- `TextUtils.get_section_wise_summary(filename)` for the cleaning
metadata file: headings via the section regex with the first (at most) two
sentences after each, else the automatic four-bucket quartile split. -/
def get_section_wise_summary (ext : Ext) (st : Store) (path : List Char) :
    Except Err (List (List Char × List Char)) :=
  match readStore st path with
  | none => .error .fileNotFound
  | some (Artifact.cleaningMeta _ text) =>
    if pyStrip text = [] then
      .ok [("Full Text".toList, "No content available".toList)]
    else
      let headings := (splitOnChar '\n' text).filter (fun l => isSectionHeading l)
      if headings ≠ [] then
        .ok (headings.foldl (fun d heading =>
          let bodyStart := (pyFind heading text).getD 0 + heading.length
          let body := pyStrip (takeToNewline (text.drop bodyStart))
          dictInsert d (pyStrip heading)
            (joinSpace ((splitIntoSentences ext body).take 2))) [])
      else
        let sents := splitIntoSentences ext text
        let chunk := max 1 (sents.length / 4)
        .ok ([("Introduction".toList, 0), ("Applications".toList, 1),
              ("Challenges".toList, 2), ("Future".toList, 3)].foldl (fun d p =>
          dictInsert d p.1
            (joinSpace (((sents.drop (p.2 * chunk)).take chunk).take 2))) [])
  | some _ => .error .keyError

/-- `formatted_hybrid_summary(filename, extractive_ratio, max_length,
min_length)`: Step 0 scrubs the cleaned text and persists the scrubbed
version over the cleaning artifact (there is no restore step); then the
abstractive and extractive passes run, title/objective heuristics are
computed, the section-wise summary is assembled, and the formatted record
is saved as `{base}_formatted_summary.json`. -/
def formatted_hybrid_summary (ext : Ext) (base : List Char)
    (extractive_ratio : ℚ) (maxLen minLen : ℕ) (st : Store) (cache : SimCache) :
    Except Err FormattedMeta × Store × SimCache :=
  let step0 : List Char × Store :=
    match readStore st (docPath base cleaningSuffix) with
    | some (Artifact.cleaningMeta sentences text) =>
      let scrubbed := scrubText text
      (scrubbed, writeStore st (docPath base cleaningSuffix)
        (Artifact.cleaningMeta sentences scrubbed))
    | _ => ([], st)
  let cleaned_text := step0.1
  let st0 := step0.2
  match abstractive_summary ext base maxLen minLen
      "facebook/bart-large-cnn".toList st0 with
  | (.error e, st1) => (.error e, st1, cache)
  | (.ok absMeta, st1) =>
    let final_abstract := absMeta.summary_text
    match extractive_summary ext base extractive_ratio "textrank".toList true st1 cache with
    | (.error e, st2, c2) => (.error e, st2, c2)
    | (.ok exMeta, st2, c2) =>
      let key_points := exMeta.summary_sentences.map pyStrip
      let sentences :=
        ((splitOnChar '.' final_abstract).map pyStrip).filter (fun s => s ≠ [])
      let title :=
        if cleaned_text ≠ [] then
          let lines :=
            ((splitOnChar '\n' cleaned_text).map pyStrip).filter (fun l => l ≠ [])
          match lines.find? (fun l =>
              decide (3 ≤ (pyWords l).length) && decide ((pyWords l).length ≤ 12)) with
          | some l => l
          | none =>
            match sentences with
            | s :: _ => s
            | [] => "Untitled".toList
        else "Untitled".toList
      let objective :=
        if 1 < sentences.length then joinSpace ((sentences.drop 1).take 2)
        else "Objective not detected".toList
      match get_section_wise_summary ext st2 (docPath base cleaningSuffix) with
      | .error e => (.error e, st2, c2)
      | .ok section_summary_raw =>
        let resume := ["Education".toList, "Projects".toList,
                       "Skills".toList, "Work Experience".toList]
        let sec1 := resume.foldl (fun d sec =>
          match pyFindCI sec cleaned_text with
          | some idx =>
            dictInsert d sec
              (joinSpace ((splitIntoSentences ext (cleaned_text.drop idx)).take 2))
          | none => d) []
        let section_summary := section_summary_raw.foldl (fun d p =>
          if d.any (fun e => e.1 == p.1) then d else d ++ [p]) sec1
        let meta : FormattedMeta :=
          { title := title
            objective := objective
            key_points := key_points
            section_summary := section_summary
            final_abstract := final_abstract
            processing_method := "optimized_formatted".toList }
        let st3 := writeStore st2 (docPath base "formatted_summary.json".toList)
          (Artifact.formattedRec meta)
        (.ok meta, st3, c2)

/-- `get_summary(filename, summary_type)`: read
`{base}_{summary_type}_summary_metadata.json`, raising `FileNotFoundError`
exactly when that file is absent. -/
def get_summary (base summary_type : List Char) (st : Store) :
    Except Err Artifact :=
  match readStore st (docPath base (metaSuffix summary_type)) with
  | none => .error .fileNotFound
  | some a => .ok a

end Brevity

namespace Brevity

/-- C7: in every scoring run, the ranked ordering produced by the shared
sort (used by all three rankers) puts a sentence with the lower original
index before one with the same score and a higher index: the pair list is
built in index order and the descending sort is stable.  `List.Sublist`
states precedence: the two pairs occur in the output in this order. -/
theorem C7_tie_break_stable (scores : List ℚ) (n i j : ℕ)
    (hij : i < j) (hj : j < n) (hn : n ≤ scores.length)
    (heq : scores.getD i 0 = scores.getD j 0) :
    pairScores scores n = .ok (pairList scores n) ∧
    List.Sublist [(scores.getD i 0, i), (scores.getD j 0, j)]
      (sortDesc (pairList scores n)) := by
  refine ⟨pairScores_ok scores n hn, ?_⟩
  refine sortDesc_stable _ _ _ (pairList_sublist scores n i j hij hj) ?_
  exact le_of_eq (by rw [heq])

theorem C7_witness :
    pairScores [1, 2, 1] 3 = .ok (pairList [1, 2, 1] 3) ∧
    List.Sublist [((1 : ℚ), 0), ((1 : ℚ), 2)] (sortDesc (pairList [1, 2, 1] 3)) :=
  C7_tie_break_stable [1, 2, 1] 3 0 2 (by norm_num) (by norm_num) (by norm_num)
    (by with_unfolding_all decide)

/-- C8: `_pagerank` initializes every score to `1/n`, each step is
`new = (1−damping)/n + damping ⬝ (mᵀ · scores)` (the `pagerankUpdate`
translation), and the returned vector is exactly the iterate at
`pagerankStop`: the first step whose update passes the `np.allclose`
closeness check, or `maxIter` when none does — whichever comes first.  The
function is total (no error on non-convergence) and deterministic, being a
pure function of the matrix and parameters. -/
theorem C8_pagerank_characterization (m : List (List ℚ)) (damping : ℚ)
    (maxIter : ℕ) :
    pagerankIter m damping 0 = List.replicate m.length (1 / (m.length : ℚ)) ∧
    (∀ j, pagerankIter m damping (j + 1) =
      pagerankUpdate m damping (pagerankIter m damping j)) ∧
    pagerank m damping maxIter =
      pagerankIter m damping (pagerankStop m damping maxIter) := by
  refine ⟨rfl, fun j => rfl, ?_⟩
  have h0 : pagerank m damping maxIter =
      pagerankLoop m damping maxIter (pagerankIter m damping 0) := rfl
  have hpred : (fun i => allclose (pagerankIter m damping (0 + i))
        (pagerankIter m damping (0 + i + 1))) =
      (fun i => allclose (pagerankIter m damping i)
        (pagerankIter m damping (i + 1))) := by
    funext i
    rw [Nat.zero_add]
  rw [h0, pagerankLoop_iter m damping maxIter 0, hpred, Nat.zero_add]
  rfl

/-- C9: for a row-stochastic square matrix (every row of length `n` sums to
exactly 1), every iterate of the power iteration, starting from the uniform
vector, has components summing to 1. -/
theorem C9_stochastic_conservation (m : List (List ℚ)) (damping : ℚ)
    (hn : m ≠ []) (hrows : ∀ r ∈ m, r.length = m.length ∧ r.sum = 1) :
    ∀ j, (pagerankIter m damping j).sum = 1 := by
  have hlen0 : m.length ≠ 0 := by simpa using (List.length_pos.mpr hn).ne'
  have hcast : ((m.length : ℚ)) ≠ 0 := by exact_mod_cast hlen0
  intro j
  induction j with
  | zero =>
    simp only [pagerankIter]
    rw [sum_replicate_rat]
    field_simp
  | succ j ih =>
    have hlen : (pagerankIter m damping j).length = m.length :=
      length_pagerankIter m damping (fun r hr => (hrows r hr).1) j
    have hmatlen : (matTdot m.length m (pagerankIter m damping j)).length = m.length :=
      length_matTdot m.length m _ (fun r hr => (hrows r hr).1)
    have hadd := sum_addVec
      (List.replicate m.length ((1 - damping) / (m.length : ℚ)))
      (scaleVec damping (matTdot m.length m (pagerankIter m damping j)))
      (by rw [List.length_replicate, length_scaleVec, hmatlen])
    simp only [pagerankIter, pagerankUpdate]
    rw [hadd, sum_replicate_rat, sum_scaleVec,
      sum_matTdot m.length m _ hrows (by rw [hlen]), ih]
    field_simp

theorem C9_witness :
    (pagerankIter [[1]] (85 / 100) 3).sum = 1 :=
  C9_stochastic_conservation [[1]] (85 / 100) (by decide)
    (by with_unfolding_all decide) 3

end Brevity

namespace Brevity

/-! ### Length facts feeding the sentence-count claim (C1) -/

theorem length_pairList (scores : List ℚ) (n : ℕ) : (pairList scores n).length = n := by
  simp [pairList]

theorem selectTop_length (scores : List ℚ) (sentences : List (List Char)) (num : ℕ)
    (h : sentences.length ≤ scores.length) :
    ∃ sel, selectTop scores sentences num = .ok sel ∧
      sel.length = min num sentences.length := by
  unfold selectTop
  rw [pairScores_ok scores sentences.length h]
  refine ⟨_, rfl, ?_⟩
  simp [length_sortDesc, length_pairList]

theorem length_pagerankLoop (m : List (List ℚ)) (d : ℚ)
    (h : ∀ r ∈ m, r.length = m.length) (k : ℕ) (v : List ℚ)
    (hv : v.length = m.length) : (pagerankLoop m d k v).length = m.length := by
  induction k generalizing v with
  | zero => exact hv
  | succ k ih =>
    simp only [pagerankLoop]
    split
    · exact hv
    · exact ih _ (by
        simp [pagerankUpdate, length_addVec, length_scaleVec,
          length_matTdot m.length m _ h])

theorem length_pagerank (m : List (List ℚ)) (d : ℚ) (maxIter : ℕ)
    (h : ∀ r ∈ m, r.length = m.length) :
    (pagerank m d maxIter).length = m.length :=
  length_pagerankLoop m d h maxIter _ (by simp)

theorem length_rowNormalize (M : List (List ℚ)) :
    (rowNormalize M).length = M.length := by
  simp [rowNormalize]

theorem rowNormalize_square (M : List (List ℚ))
    (h : ∀ r ∈ M, r.length = M.length) :
    ∀ r ∈ rowNormalize M, r.length = (rowNormalize M).length := by
  intro r hr
  simp only [rowNormalize, List.mem_map] at hr
  obtain ⟨row, hrow, rfl⟩ := hr
  simp [rowNormalize, h row hrow]

/-- `max(1, int(n * ratio))` never exceeds `n` when `ratio ≤ 1` and `n ≥ 1`. -/
theorem numSentencesFor_le (n : ℕ) (ratio : ℚ) (hn : 1 ≤ n) (hr : ratio ≤ 1) :
    numSentencesFor n ratio ≤ n := by
  unfold numSentencesFor
  have h1 : ⌊(n : ℚ) * ratio⌋ ≤ (n : ℤ) := by
    have hle : (n : ℚ) * ratio ≤ (n : ℚ) :=
      mul_le_of_le_one_right (by positivity) hr
    calc ⌊(n : ℚ) * ratio⌋ ≤ ⌊(n : ℚ)⌋ := Int.floor_le_floor hle
      _ = (n : ℤ) := Int.floor_natCast n
  exact max_le hn (Int.toNat_le.mpr h1)

/-- The sentence count of the result of `extractive_summary`, when it
succeeds. -/
def extractiveCount (ext : Ext) (base : List Char) (summary_ratio : ℚ)
    (algorithm : List Char) (useCache : Bool) (st : Store) (cache : SimCache) :
    Option ℕ :=
  match (extractive_summary ext base summary_ratio algorithm useCache st cache).1 with
  | .ok m => some m.summary_sentences.length
  | .error _ => none

/-- Under a consistent cache, `_optimized_textrank_summarize` always ranks
with the similarity matrix of the corpus itself. -/
theorem optimizedTextrank_matrix (ext : Ext) (ss : List (List Char)) (num : ℕ)
    (useCache : Bool) (cache : SimCache)
    (hcache : ∀ M, readCache cache (cacheKey ext ss) = some M →
      M = createSimilarityMatrix ext ss) :
    (optimizedTextrank ext ss num useCache cache).1 =
      selectTop (pagerank (createSimilarityMatrix ext ss)) ss num := by
  unfold optimizedTextrank
  cases useCache with
  | false => rfl
  | true =>
    cases h : readCache cache (cacheKey ext ss) with
    | none => simp [h]
    | some M => simp [h, hcache M h]

theorem rankDispatch_textrank (ext : Ext) (ss : List (List Char)) (num : ℕ)
    (useCache : Bool) (cache : SimCache) :
    rankDispatch ext ss num "textrank".toList useCache cache =
      optimizedTextrank ext ss num useCache cache := by
  unfold rankDispatch
  rw [if_pos rfl]

theorem rankDispatch_tfidf (ext : Ext) (ss : List (List Char)) (num : ℕ)
    (useCache : Bool) (cache : SimCache) :
    rankDispatch ext ss num "tfidf".toList useCache cache =
      (selectTop (ext.tfidfRowSums ss) ss num, cache) := by
  unfold rankDispatch
  rw [if_neg (by decide), if_pos rfl]

theorem rankDispatch_lsa (ext : Ext) (ss : List (List Char)) (num : ℕ)
    (useCache : Bool) (cache : SimCache) :
    rankDispatch ext ss num "lsa".toList useCache cache =
      (selectTop (ext.lsaScores (min num ss.length) ss) ss num, cache) := by
  unfold rankDispatch
  rw [if_neg (by decide), if_neg (by decide), if_pos rfl]

theorem extractiveCount_tfidf (ext : Ext) (base : List Char) (ratio : ℚ)
    (useCache : Bool) (st : Store) (cache : SimCache)
    (ss : List (List Char)) (txt : List Char)
    (hread : readStore st (docPath base cleaningSuffix) =
      some (Artifact.cleaningMeta ss txt))
    (hne : ss ≠ [])
    (htf : ss.length ≤ (ext.tfidfRowSums ss).length)
    (hk : numSentencesFor ss.length ratio ≤ ss.length) :
    extractiveCount ext base ratio "tfidf".toList useCache st cache =
      some (numSentencesFor ss.length ratio) := by
  obtain ⟨sel, hsel, hlen⟩ :=
    selectTop_length (ext.tfidfRowSums ss) ss (numSentencesFor ss.length ratio) htf
  unfold extractiveCount extractive_summary
  rw [hread]
  dsimp only
  rw [if_neg (by simpa using hne), rankDispatch_tfidf, hsel]
  dsimp only
  rw [hlen, min_eq_left hk]

end Brevity

namespace Brevity

theorem extractiveCount_lsa (ext : Ext) (base : List Char) (ratio : ℚ)
    (useCache : Bool) (st : Store) (cache : SimCache)
    (ss : List (List Char)) (txt : List Char)
    (hread : readStore st (docPath base cleaningSuffix) =
      some (Artifact.cleaningMeta ss txt))
    (hne : ss ≠ [])
    (hlsa : ss.length ≤
      (ext.lsaScores (min (numSentencesFor ss.length ratio) ss.length) ss).length)
    (hk : numSentencesFor ss.length ratio ≤ ss.length) :
    extractiveCount ext base ratio "lsa".toList useCache st cache =
      some (numSentencesFor ss.length ratio) := by
  obtain ⟨sel, hsel, hlen⟩ :=
    selectTop_length (ext.lsaScores (min (numSentencesFor ss.length ratio) ss.length) ss)
      ss (numSentencesFor ss.length ratio) hlsa
  unfold extractiveCount extractive_summary
  rw [hread]
  dsimp only
  rw [if_neg (by simpa using hne), rankDispatch_lsa, hsel]
  dsimp only
  rw [hlen, min_eq_left hk]

theorem extractiveCount_textrank (ext : Ext) (base : List Char) (ratio : ℚ)
    (useCache : Bool) (st : Store) (cache : SimCache)
    (ss : List (List Char)) (txt : List Char)
    (hread : readStore st (docPath base cleaningSuffix) =
      some (Artifact.cleaningMeta ss txt))
    (hne : ss ≠ [])
    (hsq : ∀ r ∈ ext.cosSim ss, r.length = (ext.cosSim ss).length)
    (hcos : (ext.cosSim ss).length = ss.length)
    (hcache : ∀ M, readCache cache (cacheKey ext ss) = some M →
      M = createSimilarityMatrix ext ss)
    (hk : numSentencesFor ss.length ratio ≤ ss.length) :
    extractiveCount ext base ratio "textrank".toList useCache st cache =
      some (numSentencesFor ss.length ratio) := by
  have hsq' : ∀ r ∈ createSimilarityMatrix ext ss,
      r.length = (createSimilarityMatrix ext ss).length :=
    rowNormalize_square (ext.cosSim ss) hsq
  have hlenp : ss.length ≤ (pagerank (createSimilarityMatrix ext ss)).length := by
    rw [length_pagerank _ _ _ hsq']
    unfold createSimilarityMatrix
    rw [length_rowNormalize, hcos]
  obtain ⟨sel, hsel, hlen⟩ :=
    selectTop_length (pagerank (createSimilarityMatrix ext ss)) ss
      (numSentencesFor ss.length ratio) hlenp
  have hmat := optimizedTextrank_matrix ext ss (numSentencesFor ss.length ratio)
    useCache cache hcache
  unfold extractiveCount extractive_summary
  rw [hread]
  dsimp only
  rw [if_neg (by simpa using hne), rankDispatch_textrank]
  rw [show optimizedTextrank ext ss (numSentencesFor ss.length ratio) useCache cache =
    ((optimizedTextrank ext ss (numSentencesFor ss.length ratio) useCache cache).1,
     (optimizedTextrank ext ss (numSentencesFor ss.length ratio) useCache cache).2) from rfl]
  rw [hmat, hsel]
  dsimp only
  rw [hlen, min_eq_left hk]

end Brevity

namespace Brevity

/-- C1 (amended): for every non-empty corpus and ratio in `(0,1]`, under the
external collaborators' shape contracts (square similarity matrix, one
score per sentence) and a cache that holds nothing stale for this corpus,
`extractive_summary` returns exactly `max(1, int(n × ratio))` — the
truncated product, `numSentencesFor` — sentences, for each of the three
algorithms.  (The claim's `round(n × ratio)` is refuted by
`C1_counterexample`: Python `int()` truncates.) -/
theorem C1_extractive_count (ext : Ext) (base : List Char) (ratio : ℚ)
    (useCache : Bool) (st : Store) (cache : SimCache)
    (ss : List (List Char)) (txt : List Char)
    (hread : readStore st (docPath base cleaningSuffix) =
      some (Artifact.cleaningMeta ss txt))
    (hne : ss ≠ []) (hr0 : 0 < ratio) (hr1 : ratio ≤ 1)
    (hsq : ∀ r ∈ ext.cosSim ss, r.length = (ext.cosSim ss).length)
    (hcos : (ext.cosSim ss).length = ss.length)
    (hcache : ∀ M, readCache cache (cacheKey ext ss) = some M →
      M = createSimilarityMatrix ext ss)
    (htf : ss.length ≤ (ext.tfidfRowSums ss).length)
    (hlsa : ss.length ≤
      (ext.lsaScores (min (numSentencesFor ss.length ratio) ss.length) ss).length) :
    extractiveCount ext base ratio "textrank".toList useCache st cache =
      some (numSentencesFor ss.length ratio) ∧
    extractiveCount ext base ratio "tfidf".toList useCache st cache =
      some (numSentencesFor ss.length ratio) ∧
    extractiveCount ext base ratio "lsa".toList useCache st cache =
      some (numSentencesFor ss.length ratio) := by
  have hk : numSentencesFor ss.length ratio ≤ ss.length :=
    numSentencesFor_le ss.length ratio (List.length_pos.mpr hne) hr1
  exact ⟨extractiveCount_textrank ext base ratio useCache st cache ss txt
      hread hne hsq hcos hcache hk,
    extractiveCount_tfidf ext base ratio useCache st cache ss txt hread hne htf hk,
    extractiveCount_lsa ext base ratio useCache st cache ss txt hread hne hlsa hk⟩

/-- A concrete instantiation of the external collaborators for the concrete
runs below: all-ones cosine similarities and scores (legitimate values for
a corpus of identical sentences), a constant fingerprint (Python's salted
string hash is unspecified, so any function is a valid instance), a
pipeline oracle that returns `"S"`, and a trivial tokenizer. -/
def extC : Ext :=
  { cosSim := fun ss => List.replicate ss.length (List.replicate ss.length 1)
    tfidfRowSums := fun ss => List.replicate ss.length 1
    lsaScores := fun _ ss => List.replicate ss.length 1
    pyHash := fun _ => 0
    pipelineOracle := fun _ _ _ => .ok "S".toList
    sentTok := fun _ => [] }

/-- A three-sentence corpus. -/
def ssC1 : List (List Char) := ["alpha".toList, "beta".toList, "gamma".toList]

/-- A store holding only the cleaning artifact for document `doc` with the
three-sentence corpus. -/
def storeC1 : Store :=
  [(docPath "doc".toList cleaningSuffix,
    Artifact.cleaningMeta ssC1 "alpha. beta. gamma".toList)]

theorem C1_witness :
    extractiveCount extC "doc".toList (1 / 2) "textrank".toList true storeC1 [] =
      some (numSentencesFor ssC1.length (1 / 2)) ∧
    extractiveCount extC "doc".toList (1 / 2) "tfidf".toList true storeC1 [] =
      some (numSentencesFor ssC1.length (1 / 2)) ∧
    extractiveCount extC "doc".toList (1 / 2) "lsa".toList true storeC1 [] =
      some (numSentencesFor ssC1.length (1 / 2)) :=
  C1_extractive_count extC "doc".toList (1 / 2) true storeC1 [] ssC1
    "alpha. beta. gamma".toList
    (by with_unfolding_all decide) (by decide) (by norm_num) (by norm_num)
    (by with_unfolding_all decide) (by with_unfolding_all decide)
    (by intro M h; simp [readCache] at h)
    (by with_unfolding_all decide) (by with_unfolding_all decide)

/-- C1 is false as stated: on a 3-sentence corpus with ratio `0.5` the code
returns `max(1, int(1.5)) = 1` sentence, while the claim's
`max(1, round(3 × 0.5))` is `2`. -/
theorem C1_counterexample :
    extractiveCount extC "doc".toList (1 / 2) "tfidf".toList true storeC1 [] =
      some 1 ∧
    max 1 (round ((3 : ℚ) * (1 / 2))) = 2 := by
  constructor
  · with_unfolding_all decide
  · norm_num [round_eq]

end Brevity

namespace Brevity

/-- C4 (amended): `extractive_summary` fails with `FileNotFoundError` when
the cleaning artifact is absent and with `ValueError` when the corpus is
empty; but the ratio is never validated: `ratio = 0` (and any other ratio)
does not raise `InvalidInput` — with a valid corpus it succeeds and returns
`max(1, int(n·0)) = 1` sentence (shown here for the `tfidf` ranker). -/
theorem C4_errors (ext : Ext) (base : List Char) (ratio : ℚ)
    (algorithm : List Char) (useCache : Bool) (st : Store) (cache : SimCache) :
    (readStore st (docPath base cleaningSuffix) = none →
      extractive_summary ext base ratio algorithm useCache st cache =
        (.error .fileNotFound, st, cache)) ∧
    (∀ txt, readStore st (docPath base cleaningSuffix) =
        some (Artifact.cleaningMeta [] txt) →
      extractive_summary ext base ratio algorithm useCache st cache =
        (.error .valueError, st, cache)) ∧
    (∀ ss txt, readStore st (docPath base cleaningSuffix) =
        some (Artifact.cleaningMeta ss txt) → ss ≠ [] →
      ss.length ≤ (ext.tfidfRowSums ss).length →
      extractiveCount ext base 0 "tfidf".toList useCache st cache = some 1) := by
  refine ⟨?_, ?_, ?_⟩
  · intro h
    unfold extractive_summary
    rw [h]
  · intro txt h
    unfold extractive_summary
    rw [h]
    dsimp only
    simp
  · intro ss txt h hne htf
    have h1 : numSentencesFor ss.length 0 = 1 := by
      simp [numSentencesFor]
    have := extractiveCount_tfidf ext base 0 useCache st cache ss txt h hne htf
      (by rw [h1]; exact List.length_pos.mpr hne)
    rw [h1] at this
    exact this

/-- A store whose cleaning artifact has an empty sentence list. -/
def storeEmptyCorpus : Store :=
  [(docPath "doc".toList cleaningSuffix,
    Artifact.cleaningMeta [] "whatever".toList)]

theorem C4_witness :
    extractive_summary extC "nodoc".toList (1 / 2) "tfidf".toList true [] [] =
      (.error .fileNotFound, ([] : Store), ([] : SimCache)) ∧
    extractive_summary extC "doc".toList (1 / 2) "tfidf".toList true
        storeEmptyCorpus [] =
      (.error .valueError, storeEmptyCorpus, ([] : SimCache)) ∧
    extractiveCount extC "doc".toList 0 "tfidf".toList true storeC1 [] = some 1 := by
  refine ⟨?_, ?_, ?_⟩
  · exact (C4_errors extC "nodoc".toList (1 / 2) "tfidf".toList true [] []).1
      (by with_unfolding_all decide)
  · exact (C4_errors extC "doc".toList (1 / 2) "tfidf".toList true
      storeEmptyCorpus []).2.1 "whatever".toList (by with_unfolding_all decide)
  · exact (C4_errors extC "doc".toList 0 "tfidf".toList true storeC1 []).2.2
      ssC1 "alpha. beta. gamma".toList (by with_unfolding_all decide)
      (by decide) (by with_unfolding_all decide)

/-- C4 is false as stated for the ratio check: `ratio = 0` is outside
`(0,1]`, yet the call succeeds (no `InvalidInput`), returning one
sentence. -/
theorem C4_counterexample :
    isOkE (extractive_summary extC "doc".toList 0 "tfidf".toList true
      storeC1 []).1 = true := by
  with_unfolding_all decide

end Brevity

namespace Brevity

/-- C3 (amended): when the similarity cache holds no entry for this
corpus's fingerprint, or exactly the matrix computed for this corpus, a
`use_cache=True` run of the graph algorithm returns a result and a store
identical to the `use_cache=False` recomputation.  The unqualified claim is
false: the cache is keyed only by the runtime hash of the joined corpus
text, so under a fingerprint collision the matrix cached for a *different*
corpus is used (`C3_counterexample`). -/
theorem C3_cache_consistent (ext : Ext) (base : List Char) (ratio : ℚ)
    (st : Store) (cache : SimCache) (ss : List (List Char)) (txt : List Char)
    (hread : readStore st (docPath base cleaningSuffix) =
      some (Artifact.cleaningMeta ss txt))
    (hcache : ∀ M, readCache cache (cacheKey ext ss) = some M →
      M = createSimilarityMatrix ext ss) :
    (extractive_summary ext base ratio "textrank".toList true st cache).1 =
      (extractive_summary ext base ratio "textrank".toList false st cache).1 ∧
    (extractive_summary ext base ratio "textrank".toList true st cache).2.1 =
      (extractive_summary ext base ratio "textrank".toList false st cache).2.1 := by
  have hmatT := optimizedTextrank_matrix ext ss (numSentencesFor ss.length ratio)
    true cache hcache
  have hmatF := optimizedTextrank_matrix ext ss (numSentencesFor ss.length ratio)
    false cache hcache
  unfold extractive_summary
  rw [hread]
  dsimp only
  by_cases hz : ss.length = 0
  · rw [if_pos hz, if_pos hz]
    exact ⟨rfl, rfl⟩
  · rw [if_neg hz, if_neg hz, rankDispatch_textrank, rankDispatch_textrank]
    rw [show optimizedTextrank ext ss (numSentencesFor ss.length ratio) true cache =
      ((optimizedTextrank ext ss (numSentencesFor ss.length ratio) true cache).1,
       (optimizedTextrank ext ss (numSentencesFor ss.length ratio) true cache).2) from rfl]
    rw [show optimizedTextrank ext ss (numSentencesFor ss.length ratio) false cache =
      ((optimizedTextrank ext ss (numSentencesFor ss.length ratio) false cache).1,
       (optimizedTextrank ext ss (numSentencesFor ss.length ratio) false cache).2) from rfl]
    rw [hmatT, hmatF]
    cases hsel : selectTop (pagerank (createSimilarityMatrix ext ss)) ss
        (numSentencesFor ss.length ratio) with
    | error e => exact ⟨rfl, rfl⟩
    | ok sel => exact ⟨rfl, rfl⟩

theorem C3_witness :
    (extractive_summary extC "doc".toList (1 / 2) "textrank".toList true storeC1 []).1 =
      (extractive_summary extC "doc".toList (1 / 2) "textrank".toList false storeC1 []).1 ∧
    (extractive_summary extC "doc".toList (1 / 2) "textrank".toList true storeC1 []).2.1 =
      (extractive_summary extC "doc".toList (1 / 2) "textrank".toList false storeC1 []).2.1 :=
  C3_cache_consistent extC "doc".toList (1 / 2) storeC1 [] ssC1
    "alpha. beta. gamma".toList (by with_unfolding_all decide)
    (by intro M h; simp [readCache] at h)

/-- A one-sentence corpus and a two-sentence corpus for the collision run. -/
def ssA : List (List Char) := ["alpha alpha".toList]

/-- Store for document `docA` holding the one-sentence corpus. -/
def storeA : Store :=
  [(docPath "docA".toList cleaningSuffix,
    Artifact.cleaningMeta ssA "alpha alpha".toList)]

/-- The two-sentence corpus whose fingerprint collides with `ssA`'s under
`extC.pyHash`. -/
def ssB : List (List Char) := ["beta".toList, "gamma".toList]

/-- Store for document `docB` holding the two-sentence corpus. -/
def storeB : Store :=
  [(docPath "docB".toList cleaningSuffix,
    Artifact.cleaningMeta ssB "beta. gamma".toList)]

/-- The cache state after a cached graph run on `docA`: it holds the 1×1
similarity matrix of `ssA` under the shared fingerprint. -/
def cacheAfterA : SimCache :=
  (extractive_summary extC "docA".toList (1 / 2) "textrank".toList true storeA []).2.2

/-- C3 is false as stated: the corpora `ssA ≠ ssB` share a fingerprint, and
the cached run on `docB` uses the matrix computed for `ssA` (a 1×1 matrix),
crashing with `IndexError`, while the uncached recomputation succeeds — the
cached matrix used is *not* the one computed for this corpus, and the
cached result is not identical to the uncached one. -/
theorem C3_counterexample :
    ssA ≠ ssB ∧ cacheKey extC ssA = cacheKey extC ssB ∧
    (extractive_summary extC "docB".toList (1 / 2) "textrank".toList true
      storeB cacheAfterA).1 = .error .indexError ∧
    isOkE (extractive_summary extC "docB".toList (1 / 2) "textrank".toList false
      storeB cacheAfterA).1 = true := by
  refine ⟨by decide, by decide, ?_, ?_⟩
  · with_unfolding_all decide
  · with_unfolding_all decide

end Brevity

namespace Brevity

/-! ### Store framing lemmas (C2/C5/C6 groundwork) -/

theorem docPath_inj (base s t : List Char) :
    docPath base s = docPath base t ↔ s = t := by
  unfold docPath
  constructor
  · exact List.append_cancel_left
  · intro h; rw [h]

theorem readStore_writeStore_eq (st : Store) (p : List Char) (a : Artifact) :
    readStore (writeStore st p a) p = some a := by
  simp [readStore, writeStore]

theorem readStore_writeStore_ne (st : Store) (p q : List Char) (a : Artifact)
    (h : p ≠ q) : readStore (writeStore st q a) p = readStore st p := by
  have hb : ((q, a).1 == p) = false := by
    simp only [beq_eq_false_iff_ne, ne_eq]
    exact fun hq => h (hq.symm)
  simp [readStore, writeStore, List.find?_cons_of_neg, hb]

/-- `extractive_summary` writes only its own two output files: any other
path reads back unchanged. -/
theorem extractive_preserves (ext : Ext) (base : List Char) (ratio : ℚ)
    (alg : List Char) (useCache : Bool) (st : Store) (cache : SimCache)
    (p : List Char)
    (hp1 : p ≠ docPath base "extractive_summary.txt".toList)
    (hp2 : p ≠ docPath base (metaSuffix "extractive".toList)) :
    readStore (extractive_summary ext base ratio alg useCache st cache).2.1 p =
      readStore st p := by
  unfold extractive_summary
  cases h : readStore st (docPath base cleaningSuffix) with
  | none => rfl
  | some a =>
    cases a with
    | cleaningMeta ss txt =>
      dsimp only
      split
      · rfl
      · split
        · rfl
        · rw [readStore_writeStore_ne _ _ _ _ hp2,
            readStore_writeStore_ne _ _ _ _ hp1]
    | textFile c => rfl
    | extractiveRec m => rfl
    | abstractiveRec m => rfl
    | hybridRec m => rfl
    | formattedRec m => rfl

/-- `abstractive_summary` writes only its own two output files. -/
theorem abstractive_preserves (ext : Ext) (base : List Char)
    (maxLen minLen : ℕ) (model : List Char) (st : Store) (p : List Char)
    (hp1 : p ≠ docPath base "abstractive_summary.txt".toList)
    (hp2 : p ≠ docPath base (metaSuffix "abstractive".toList)) :
    readStore (abstractive_summary ext base maxLen minLen model st).2 p =
      readStore st p := by
  unfold abstractive_summary
  cases h : readStore st (docPath base cleaningSuffix) with
  | none => rfl
  | some a =>
    cases a with
    | cleaningMeta ss txt =>
      dsimp only
      split
      · rfl
      · rw [readStore_writeStore_ne _ _ _ _ hp2,
          readStore_writeStore_ne _ _ _ _ hp1]
    | textFile c => rfl
    | extractiveRec m => rfl
    | abstractiveRec m => rfl
    | hybridRec m => rfl
    | formattedRec m => rfl

end Brevity

namespace Brevity

theorem cleaningPath_ne (base s : List Char) (h : cleaningSuffix ≠ s) :
    docPath base cleaningSuffix ≠ docPath base s :=
  fun hc => h ((docPath_inj base _ _).mp hc)

/-- C2 (amended): when the abstractive step (and the whole call) succeeds,
`hybrid_summary` restores the cleaned-text artifact: the post-call read
equals the pre-call read.  The unconditional claim is false: the source has
no `try/finally`, so when the abstractive step raises, the override is
never undone (`C2_counterexample`). -/
theorem C2_restore_on_success (ext : Ext) (base : List Char) (ratio : ℚ)
    (maxLen minLen : ℕ) (st : Store) (cache : SimCache)
    (hok : isOkE (hybrid_summary ext base ratio maxLen minLen st cache).1 = true) :
    readStore (hybrid_summary ext base ratio maxLen minLen st cache).2.1
      (docPath base cleaningSuffix) =
    readStore st (docPath base cleaningSuffix) := by
  have hne1 : docPath base cleaningSuffix ≠
      docPath base "extractive_summary.txt".toList :=
    cleaningPath_ne base _ (by decide)
  have hne2 : docPath base cleaningSuffix ≠
      docPath base (metaSuffix "extractive".toList) :=
    cleaningPath_ne base _ (by decide)
  have hne5 : docPath base cleaningSuffix ≠
      docPath base "hybrid_summary.txt".toList :=
    cleaningPath_ne base _ (by decide)
  have hne6 : docPath base cleaningSuffix ≠
      docPath base (metaSuffix "hybrid".toList) :=
    cleaningPath_ne base _ (by decide)
  have hpres := extractive_preserves ext base ratio "textrank".toList true st cache
    (docPath base cleaningSuffix) hne1 hne2
  unfold hybrid_summary at hok ⊢
  rcases hex : extractive_summary ext base ratio "textrank".toList true st cache with
    ⟨r1, st1, c1⟩
  rw [hex] at hpres hok
  cases r1 with
  | error e => simp [isOkE] at hok
  | ok exMeta =>
    dsimp only at hok hpres ⊢
    cases hrd : readStore st1 (docPath base cleaningSuffix) with
    | none => rw [hrd] at hok; simp [isOkE] at hok
    | some a =>
      cases a with
      | cleaningMeta sents orig =>
        rw [hrd] at hok
        dsimp only at hok ⊢
        rcases hab : abstractive_summary ext base maxLen minLen
            "facebook/bart-large-cnn".toList
            (writeStore st1 (docPath base cleaningSuffix)
              (Artifact.cleaningMeta sents exMeta.summary_text)) with ⟨r2, st3⟩
        rw [hab] at hok
        cases r2 with
        | error e => simp [isOkE] at hok
        | ok absMeta =>
          dsimp only
          rw [readStore_writeStore_ne _ _ _ _ hne6,
            readStore_writeStore_ne _ _ _ _ hne5, readStore_writeStore_eq,
            ← hpres, hrd]
      | textFile c => rw [hrd] at hok; simp [isOkE] at hok
      | extractiveRec m => rw [hrd] at hok; simp [isOkE] at hok
      | abstractiveRec m => rw [hrd] at hok; simp [isOkE] at hok
      | hybridRec m => rw [hrd] at hok; simp [isOkE] at hok
      | formattedRec m => rw [hrd] at hok; simp [isOkE] at hok

theorem C2_witness :
    readStore (hybrid_summary extC "doc".toList (1 / 2) 200 50 storeC1 []).2.1
      (docPath "doc".toList cleaningSuffix) =
    readStore storeC1 (docPath "doc".toList cleaningSuffix) :=
  C2_restore_on_success extC "doc".toList (1 / 2) 200 50 storeC1 []
    (by with_unfolding_all decide)

/-- The collaborators with a failing summarization pipeline. -/
def extFail : Ext :=
  { extC with pipelineOracle := fun _ _ _ => .error .dependencyUnavailable }

/-- A corpus with one 60-character sentence (long enough that its chunk is
actually sent to the pipeline). -/
def ssLong : List (List Char) := [List.replicate 60 'a']

/-- Store for a document whose cleaned text differs from the extractive
summary the hybrid pipeline writes over it. -/
def storeLong : Store :=
  [(docPath "doc".toList cleaningSuffix,
    Artifact.cleaningMeta ssLong "original text".toList)]

/-- C2 is false as stated: when the abstractive step raises, the call
propagates the exception and the cleaned-text artifact is left overridden
with the extractive summary (here 60 `a`s) instead of the pre-call value
(`"original text"`). -/
theorem C2_counterexample :
    isOkE (hybrid_summary extFail "doc".toList (1 / 2) 200 50 storeLong []).1 = false ∧
    readStore (hybrid_summary extFail "doc".toList (1 / 2) 200 50 storeLong []).2.1
      (docPath "doc".toList cleaningSuffix) =
      some (Artifact.cleaningMeta ssLong (List.replicate 60 'a')) ∧
    readStore storeLong (docPath "doc".toList cleaningSuffix) =
      some (Artifact.cleaningMeta ssLong "original text".toList) ∧
    (List.replicate 60 'a' : List Char) ≠ "original text".toList := by
  refine ⟨?_, ?_, ?_, by decide⟩ <;> with_unfolding_all decide

end Brevity

namespace Brevity

/-- C5 (amended): `formatted_hybrid_summary` *does* mutate the persisted
cleaned-text artifact: its Step 0 writes the scrubbed text (page markers,
emails, phone numbers removed) over the cleaning record and never restores
it.  After a successful run the artifact holds the scrubbed version of the
pre-call cleaned text (with the sentence list unchanged) — not the
pre-call value, which the claim asserted (`C5_counterexample`). -/
theorem C5_formatted_scrub_persists (ext : Ext) (base : List Char)
    (ratio : ℚ) (maxLen minLen : ℕ) (st : Store) (cache : SimCache)
    (sents : List (List Char)) (origText : List Char)
    (hread : readStore st (docPath base cleaningSuffix) =
      some (Artifact.cleaningMeta sents origText))
    (hok : isOkE (formatted_hybrid_summary ext base ratio maxLen minLen st cache).1 = true) :
    readStore (formatted_hybrid_summary ext base ratio maxLen minLen st cache).2.1
      (docPath base cleaningSuffix) =
      some (Artifact.cleaningMeta sents (scrubText origText)) := by
  have hne1 : docPath base cleaningSuffix ≠
      docPath base "extractive_summary.txt".toList :=
    cleaningPath_ne base _ (by decide)
  have hne2 : docPath base cleaningSuffix ≠
      docPath base (metaSuffix "extractive".toList) :=
    cleaningPath_ne base _ (by decide)
  have hne3 : docPath base cleaningSuffix ≠
      docPath base "abstractive_summary.txt".toList :=
    cleaningPath_ne base _ (by decide)
  have hne4 : docPath base cleaningSuffix ≠
      docPath base (metaSuffix "abstractive".toList) :=
    cleaningPath_ne base _ (by decide)
  have hne7 : docPath base cleaningSuffix ≠
      docPath base "formatted_summary.json".toList :=
    cleaningPath_ne base _ (by decide)
  unfold formatted_hybrid_summary at hok ⊢
  rw [hread] at hok ⊢
  dsimp only at hok ⊢
  have habs := abstractive_preserves ext base maxLen minLen
    "facebook/bart-large-cnn".toList
    (writeStore st (docPath base cleaningSuffix)
      (Artifact.cleaningMeta sents (scrubText origText)))
    (docPath base cleaningSuffix) hne3 hne4
  rcases hab : abstractive_summary ext base maxLen minLen
      "facebook/bart-large-cnn".toList
      (writeStore st (docPath base cleaningSuffix)
        (Artifact.cleaningMeta sents (scrubText origText))) with ⟨r1, st1⟩
  rw [hab] at hok habs
  cases r1 with
  | error e => simp [isOkE] at hok
  | ok absMeta =>
    dsimp only at hok habs ⊢
    have hexp := extractive_preserves ext base ratio "textrank".toList true
      st1 cache (docPath base cleaningSuffix) hne1 hne2
    rcases hex : extractive_summary ext base ratio "textrank".toList true st1 cache with
      ⟨r2, st2, c2⟩
    rw [hex] at hok hexp
    cases r2 with
    | error e => simp [isOkE] at hok
    | ok exMeta =>
      dsimp only at hok hexp ⊢
      cases hsec : get_section_wise_summary ext st2 (docPath base cleaningSuffix) with
      | error e => simp [isOkE, hsec] at hok
      | ok raw =>
        dsimp only
        rw [readStore_writeStore_ne _ _ _ _ hne7, hexp, habs,
          readStore_writeStore_eq]

/-- A one-sentence corpus whose cleaned text contains an email-like token
(`a@b`), which the formatted pipeline's scrub removes. -/
def ssC5 : List (List Char) := ["Contact a@b now".toList]

/-- Store for the scrub counterexample. -/
def storeC5 : Store :=
  [(docPath "doc".toList cleaningSuffix,
    Artifact.cleaningMeta ssC5 "Contact a@b now".toList)]

theorem C5_witness :
    readStore (formatted_hybrid_summary extC "doc".toList (1 / 2) 200 50
        storeC5 []).2.1 (docPath "doc".toList cleaningSuffix) =
      some (Artifact.cleaningMeta ssC5 (scrubText "Contact a@b now".toList)) :=
  C5_formatted_scrub_persists extC "doc".toList (1 / 2) 200 50 storeC5 []
    ssC5 "Contact a@b now".toList (by with_unfolding_all decide)
    (by with_unfolding_all decide)

/-- C5 is false as stated: a successful `formatted_hybrid_summary` run
leaves the cleaned-text artifact permanently changed — the email token is
scrubbed out and the scrubbed text is what remains persisted. -/
theorem C5_counterexample :
    isOkE (formatted_hybrid_summary extC "doc".toList (1 / 2) 200 50
      storeC5 []).1 = true ∧
    readStore (formatted_hybrid_summary extC "doc".toList (1 / 2) 200 50
        storeC5 []).2.1 (docPath "doc".toList cleaningSuffix) =
      some (Artifact.cleaningMeta ssC5 "Contact  now".toList) ∧
    readStore storeC5 (docPath "doc".toList cleaningSuffix) =
      some (Artifact.cleaningMeta ssC5 "Contact a@b now".toList) ∧
    ("Contact  now".toList : List Char) ≠ "Contact a@b now".toList := by
  refine ⟨?_, ?_, ?_, by decide⟩ <;> with_unfolding_all decide

end Brevity

namespace Brevity

/-- C6 (amended): after a successful `extractive_summary`,
`abstractive_summary` or `hybrid_summary` run, `get_summary` with the
matching `summary_type` returns exactly the record that run persisted; and
`get_summary` fails with `NotFound` precisely when the record at
`{base}_{summary_type}_summary_metadata.json` is absent.  The claim's
fourth stage is false: `formatted_hybrid_summary` persists its record as
`{base}_formatted_summary.json`, a path `get_summary` never reads, so
`get_summary(_, "formatted_hybrid")` raises `NotFound` even after a
successful formatted run (`C6_counterexample`). -/
theorem C6_get_summary (ext : Ext) (base : List Char) (ratio : ℚ)
    (alg : List Char) (useCache : Bool) (maxLen minLen : ℕ)
    (model : List Char) (st : Store) (cache : SimCache) :
    (∀ m st' c', extractive_summary ext base ratio alg useCache st cache =
        (.ok m, st', c') →
      get_summary base "extractive".toList st' = .ok (Artifact.extractiveRec m)) ∧
    (∀ m st', abstractive_summary ext base maxLen minLen model st = (.ok m, st') →
      get_summary base "abstractive".toList st' = .ok (Artifact.abstractiveRec m)) ∧
    (∀ m st' c', hybrid_summary ext base ratio maxLen minLen st cache =
        (.ok m, st', c') →
      get_summary base "hybrid".toList st' = .ok (Artifact.hybridRec m)) ∧
    (∀ t, get_summary base t st = .error .fileNotFound ↔
      readStore st (docPath base (metaSuffix t)) = none) := by
  refine ⟨?_, ?_, ?_, ?_⟩
  · intro m st' c' h
    unfold extractive_summary at h
    cases hrd : readStore st (docPath base cleaningSuffix) with
    | none => rw [hrd] at h; simp at h
    | some a =>
      cases a with
      | cleaningMeta ss txt =>
        rw [hrd] at h
        dsimp only at h
        by_cases hz : ss.length = 0
        · rw [if_pos hz] at h; simp at h
        · rw [if_neg hz] at h
          rcases hds : rankDispatch ext ss (numSentencesFor ss.length ratio)
            alg useCache cache with ⟨r, c''⟩
          rw [hds] at h
          cases r with
          | error e => simp at h
          | ok sel =>
            dsimp only at h
            simp only [Prod.mk.injEq] at h
            obtain ⟨h1, h2, h3⟩ := h
            injection h1 with h1
            subst h1
            subst h2
            unfold get_summary
            rw [readStore_writeStore_eq]
      | textFile c => rw [hrd] at h; simp at h
      | extractiveRec mm => rw [hrd] at h; simp at h
      | abstractiveRec mm => rw [hrd] at h; simp at h
      | hybridRec mm => rw [hrd] at h; simp at h
      | formattedRec mm => rw [hrd] at h; simp at h
  · intro m st' h
    unfold abstractive_summary at h
    cases hrd : readStore st (docPath base cleaningSuffix) with
    | none => rw [hrd] at h; simp at h
    | some a =>
      cases a with
      | cleaningMeta ss txt =>
        rw [hrd] at h
        dsimp only at h
        cases hps : pipelineSummarize ext txt maxLen minLen with
        | error e => rw [hps] at h; simp at h
        | ok summaryText =>
          rw [hps] at h
          dsimp only at h
          simp only [Prod.mk.injEq] at h
          obtain ⟨h1, h2⟩ := h
          injection h1 with h1
          subst h1
          subst h2
          unfold get_summary
          rw [readStore_writeStore_eq]
      | textFile c => rw [hrd] at h; simp at h
      | extractiveRec mm => rw [hrd] at h; simp at h
      | abstractiveRec mm => rw [hrd] at h; simp at h
      | hybridRec mm => rw [hrd] at h; simp at h
      | formattedRec mm => rw [hrd] at h; simp at h
  · intro m st' c' h
    unfold hybrid_summary at h
    rcases hex : extractive_summary ext base ratio "textrank".toList true st cache with
      ⟨r1, st1, c1⟩
    rw [hex] at h
    cases r1 with
    | error e => simp at h
    | ok exMeta =>
      dsimp only at h
      cases hrd : readStore st1 (docPath base cleaningSuffix) with
      | none => rw [hrd] at h; simp at h
      | some a =>
        cases a with
        | cleaningMeta sents orig =>
          rw [hrd] at h
          dsimp only at h
          rcases hab : abstractive_summary ext base maxLen minLen
              "facebook/bart-large-cnn".toList
              (writeStore st1 (docPath base cleaningSuffix)
                (Artifact.cleaningMeta sents exMeta.summary_text)) with ⟨r2, st3⟩
          rw [hab] at h
          cases r2 with
          | error e => simp at h
          | ok absMeta =>
            dsimp only at h
            simp only [Prod.mk.injEq] at h
            obtain ⟨h1, h2, h3⟩ := h
            injection h1 with h1
            subst h1
            subst h2
            unfold get_summary
            rw [readStore_writeStore_eq]
        | textFile c => rw [hrd] at h; simp at h
        | extractiveRec mm => rw [hrd] at h; simp at h
        | abstractiveRec mm => rw [hrd] at h; simp at h
        | hybridRec mm => rw [hrd] at h; simp at h
        | formattedRec mm => rw [hrd] at h; simp at h
  · intro t
    unfold get_summary
    cases hrd : readStore st (docPath base (metaSuffix t)) with
    | none => simp
    | some a => simp

/-- The record the tfidf run of `C6_witness` persists. -/
def metaC6 : ExtractiveMeta :=
  { summary_text := "alpha".toList
    summary_sentences := ["alpha".toList]
    original_sentences := 3
    compression_ratio := 1 / 3
    algorithm := "tfidf".toList
    summary_ratio := 1 / 2
    file_path := docPath "doc".toList "extractive_summary.txt".toList
    processing_time := "optimized".toList }

theorem C6_witness :
    get_summary "doc".toList "extractive".toList
      (extractive_summary extC "doc".toList (1 / 2) "tfidf".toList true
        storeC1 []).2.1 = .ok (Artifact.extractiveRec metaC6) :=
  (C6_get_summary extC "doc".toList (1 / 2) "tfidf".toList true 200 50
    "facebook/bart-large-cnn".toList storeC1 []).1 metaC6
    (extractive_summary extC "doc".toList (1 / 2) "tfidf".toList true
      storeC1 []).2.1
    (extractive_summary extC "doc".toList (1 / 2) "tfidf".toList true
      storeC1 []).2.2
    (by with_unfolding_all decide)

/-- C6 is false as stated for the formatted stage: a successful
`formatted_hybrid_summary` run persists only `formatted_summary.json`, and
`get_summary` for `summary_type = "formatted_hybrid"` still raises
`NotFound`. -/
theorem C6_counterexample :
    isOkE (formatted_hybrid_summary extC "doc".toList (1 / 2) 200 50
      storeC5 []).1 = true ∧
    get_summary "doc".toList "formatted_hybrid".toList
      (formatted_hybrid_summary extC "doc".toList (1 / 2) 200 50
        storeC5 []).2.1 = .error .fileNotFound := by
  constructor <;> with_unfolding_all decide

end Brevity

namespace Brevity

/-! ### Chunk-size facts for `_pipeline_summarize` (C10 groundwork) -/

/-- The text the chunk accumulator would hold after appending each piece
followed by `". "` (the loop's `temp_chunk += sentence + ". "`). -/
def joinPieces : List (List Char) → List Char
  | [] => []
  | p :: ps => p ++ '.' :: ' ' :: joinPieces ps

theorem splitDotSpace_ne_nil (l : List Char) : splitDotSpace l ≠ [] := by
  induction l using splitDotSpace.induct with
  | case1 => simp [splitDotSpace]
  | case2 c => simp [splitDotSpace]
  | case3 c1 c2 rest h ih =>
    simp only [splitDotSpace]
    rw [if_pos h]
    simp
  | case4 c1 c2 rest h heq ih =>
    exact absurd heq ih
  | case5 c1 c2 rest h p ps heq ih =>
    simp only [splitDotSpace]
    rw [if_neg h, heq]
    simp

/-- The split pieces, rejoined the way the chunk loop rejoins them,
reproduce the text with one trailing `". "`. -/
theorem joinPieces_splitDotSpace (l : List Char) :
    joinPieces (splitDotSpace l) = l ++ '.' :: ' ' :: [] := by
  induction l using splitDotSpace.induct with
  | case1 => rfl
  | case2 c => rfl
  | case3 c1 c2 rest h ih =>
    obtain ⟨h1, h2⟩ := h
    subst h1
    subst h2
    simp [splitDotSpace, joinPieces, ih]
  | case4 c1 c2 rest h heq ih =>
    exact absurd heq (splitDotSpace_ne_nil _)
  | case5 c1 c2 rest h p ps heq ih =>
    simp only [splitDotSpace]
    rw [if_neg h, heq]
    rw [heq] at ih
    simp only [joinPieces] at ih ⊢
    rw [List.cons_append, ih]
    simp

end Brevity

namespace Brevity

theorem dropWhile_length_le (p : Char → Bool) (l : List Char) :
    (l.dropWhile p).length ≤ l.length :=
  (List.dropWhile_sublist p).length_le

theorem pyWordsAux_length_le (l : List Char) : ∀ acc : List Char,
    (pyWordsAux l acc).length ≤ l.length + (if acc = [] then 0 else 1) := by
  induction l with
  | nil =>
    intro acc
    by_cases h : acc = [] <;> simp [pyWordsAux, h]
  | cons c cs ih =>
    intro acc
    simp only [pyWordsAux]
    by_cases hsp : isPySpace c = true
    · rw [if_pos hsp]
      have h1 := ih []
      rw [if_pos rfl] at h1
      by_cases hacc : acc = []
      · rw [if_pos hacc, if_pos hacc]
        simp only [List.length_cons]
        omega
      · rw [if_neg hacc, if_neg hacc]
        simp only [List.length_cons]
        omega
    · rw [if_neg hsp]
      have h1 := ih (c :: acc)
      rw [if_neg (List.cons_ne_nil c acc)] at h1
      simp only [List.length_cons]
      by_cases hacc : acc = [] <;> [rw [if_pos hacc]; rw [if_neg hacc]] <;> omega

theorem pyWords_length_le (l : List Char) : (pyWords l).length ≤ l.length := by
  have h := pyWordsAux_length_le l []
  rw [if_pos rfl] at h
  simpa [pyWords] using h

theorem buildChunksAux_single (ps : List (List Char)) : ∀ temp : List Char,
    temp.length + (joinPieces ps).length ≤ 1000 →
    buildChunksAux ps temp =
      if temp ++ joinPieces ps = [] then []
      else [pyStrip (temp ++ joinPieces ps)] := by
  induction ps with
  | nil =>
    intro temp h
    simp [buildChunksAux, joinPieces]
  | cons s ps ih =>
    intro temp h
    simp only [joinPieces] at h ⊢
    have hdot : ('.' :: ' ' :: joinPieces ps).length = (joinPieces ps).length + 2 := by
      simp
    have hcond : (pyWords temp).length + (pyWords s).length ≤ 1000 := by
      have h1 := pyWords_length_le temp
      have h2 := pyWords_length_le s
      rw [List.length_append] at h
      omega
    simp only [buildChunksAux]
    rw [if_pos hcond]
    have h' : (temp ++ s ++ '.' :: ' ' :: []).length + (joinPieces ps).length ≤ 1000 := by
      rw [List.length_append] at h
      simp only [List.length_append, List.length_cons, List.length_nil]
      omega
    rw [ih _ h']
    have heq : (temp ++ s ++ '.' :: ' ' :: []) ++ joinPieces ps =
        temp ++ (s ++ '.' :: ' ' :: joinPieces ps) := by
      simp
    rw [heq]

theorem dropWhile_append_dotspace (l : List Char) :
    (l ++ '.' :: ' ' :: []).dropWhile isPySpace =
      l.dropWhile isPySpace ++ '.' :: ' ' :: [] := by
  induction l with
  | nil => rfl
  | cons c cs ih =>
    simp only [List.cons_append, List.dropWhile_cons]
    by_cases hc : isPySpace c = true <;> simp [hc, ih]

theorem dropTrailingWs_append_dotspace (l : List Char) :
    dropTrailingWs (l ++ '.' :: ' ' :: []) = l ++ ['.'] := by
  unfold dropTrailingWs
  have h1 : (l ++ '.' :: ' ' :: []).reverse = ' ' :: '.' :: l.reverse := by
    simp
  rw [h1]
  have h2 : (' ' :: '.' :: l.reverse).dropWhile isPySpace = '.' :: l.reverse := by
    rw [List.dropWhile_cons_of_pos (by decide), List.dropWhile_cons_of_neg (by decide)]
  rw [h2]
  simp

theorem pyStrip_append_dotspace (l : List Char) :
    pyStrip (l ++ '.' :: ' ' :: []) = l.dropWhile isPySpace ++ ['.'] := by
  unfold pyStrip
  rw [dropWhile_append_dotspace, dropTrailingWs_append_dotspace]

theorem pyStrip_length_le (l : List Char) : (pyStrip l).length ≤ l.length := by
  unfold pyStrip dropTrailingWs
  have h1 := dropWhile_length_le isPySpace l
  have h2 := dropWhile_length_le isPySpace (l.dropWhile isPySpace).reverse
  simp only [List.length_reverse] at *
  omega

/-- Any text of at most 49 characters produces a single chunk of at most
50 characters after stripping (the loop appends `". "`, the final strip
removes the trailing space but keeps the dot, hence the off-by-one). -/
theorem buildChunks_short (text : List Char) (h : text.length ≤ 49) :
    ∀ c ∈ buildChunks text, (pyStrip c).length ≤ 50 := by
  intro c hc
  unfold buildChunks at hc
  have hjp : joinPieces (splitDotSpace text) = text ++ '.' :: ' ' :: [] :=
    joinPieces_splitDotSpace text
  have hb : ([] : List Char).length + (joinPieces (splitDotSpace text)).length ≤ 1000 := by
    rw [hjp]
    simp [List.length_append]
    omega
  rw [buildChunksAux_single (splitDotSpace text) [] hb, hjp, List.nil_append] at hc
  rw [if_neg (by simp)] at hc
  simp only [List.mem_singleton] at hc
  subst hc
  calc (pyStrip (pyStrip (text ++ '.' :: ' ' :: []))).length
      ≤ (pyStrip (text ++ '.' :: ' ' :: [])).length := pyStrip_length_le _
    _ = (text.dropWhile isPySpace ++ ['.']).length := by rw [pyStrip_append_dotspace]
    _ = (text.dropWhile isPySpace).length + 1 := by simp
    _ ≤ text.length + 1 := by
        have := dropWhile_length_le isPySpace text
        omega
    _ ≤ 50 := by omega

theorem chunksToSend_nil (text : List Char)
    (h : ∀ c ∈ buildChunks text, (pyStrip c).length ≤ 50) :
    chunksToSend text = [] := by
  unfold chunksToSend
  rw [List.filter_eq_nil_iff]
  intro c hc
  have := h c hc
  simp
  omega

end Brevity

namespace Brevity

/-- C10 (amended): whenever every chunk built from the text is at most 50
characters after trimming, `_pipeline_summarize` sends no chunk to the
summarization pipeline and returns the empty string, and
`abstractive_summary` then persists an empty summary without raising; any
cleaned text of at most **49** characters satisfies the chunk condition.
(The claim's bound of 50 is off by one — the chunk carries a trailing dot —
see `C10_counterexample`.) -/
theorem C10_short_chunks_no_send :
    (∀ (text : List Char) (ext : Ext) (maxLen minLen : ℕ),
      (∀ c ∈ buildChunks text, (pyStrip c).length ≤ 50) →
      chunksToSend text = [] ∧
      pipelineSummarize ext text maxLen minLen = .ok []) ∧
    (∀ (ext : Ext) (base : List Char) (maxLen minLen : ℕ) (model : List Char)
        (st : Store) (ss : List (List Char)) (txt : List Char),
      readStore st (docPath base cleaningSuffix) =
        some (Artifact.cleaningMeta ss txt) →
      (∀ c ∈ buildChunks txt, (pyStrip c).length ≤ 50) →
      (abstractive_summary ext base maxLen minLen model st).1 = .ok
        { summary_text := [], original_length := txt.length, summary_length := 0,
          compression_ratio := 0, model := model, max_length := maxLen,
          min_length := minLen,
          file_path := docPath base "abstractive_summary.txt".toList,
          processing_method := "pipeline".toList }) ∧
    (∀ text : List Char, text.length ≤ 49 →
      ∀ c ∈ buildChunks text, (pyStrip c).length ≤ 50) := by
  have hpipe : ∀ (text : List Char) (ext : Ext) (maxLen minLen : ℕ),
      (∀ c ∈ buildChunks text, (pyStrip c).length ≤ 50) →
      pipelineSummarize ext text maxLen minLen = .ok [] := by
    intro text ext maxLen minLen h
    unfold pipelineSummarize
    rw [chunksToSend_nil text h]
    rfl
  refine ⟨fun text ext maxLen minLen h => ⟨chunksToSend_nil text h,
    hpipe text ext maxLen minLen h⟩, ?_, buildChunks_short⟩
  intro ext base maxLen minLen model st ss txt hread hch
  unfold abstractive_summary
  rw [hread]
  dsimp only
  rw [hpipe txt ext maxLen minLen hch]
  dsimp only
  have hcomp : (if 0 < txt.length
      then ((List.length ([] : List Char) : ℚ)) / (txt.length : ℚ) else 0) = 0 := by
    split <;> simp
  rw [hcomp]
  rfl

theorem C10_counterexample :
    (List.replicate 50 'a').length ≤ 50 ∧
    chunksToSend (List.replicate 50 'a') = [List.replicate 50 'a' ++ ['.']] ∧
    pipelineSummarize extFail (List.replicate 50 'a') 150 30 =
      .error .dependencyUnavailable := by
  refine ⟨by decide, ?_, ?_⟩ <;> with_unfolding_all decide

/-- Store for the short-text abstractive run of `C10_witness`. -/
def storeC10 : Store :=
  [(docPath "doc".toList cleaningSuffix,
    Artifact.cleaningMeta ["short text".toList] "short text".toList)]

theorem C10_witness :
    chunksToSend "short text".toList = [] ∧
    (abstractive_summary extC "doc".toList 150 30
        "facebook/bart-large-cnn".toList storeC10).1 = .ok
      { summary_text := [], original_length := "short text".toList.length,
        summary_length := 0, compression_ratio := 0,
        model := "facebook/bart-large-cnn".toList, max_length := 150,
        min_length := 30,
        file_path := docPath "doc".toList "abstractive_summary.txt".toList,
        processing_method := "pipeline".toList } := by
  constructor
  · exact (C10_short_chunks_no_send.1 "short text".toList extC 150 30
      (by with_unfolding_all decide)).1
  · exact C10_short_chunks_no_send.2.1 extC "doc".toList 150 30
      "facebook/bart-large-cnn".toList storeC10 ["short text".toList]
      "short text".toList (by with_unfolding_all decide)
      (by with_unfolding_all decide)

end Brevity
